import Mathlib

/-!
Verification development for the GRASS addon r.import.probav_lc
(file src/r.import.probav_lc.py). The Python module is shallowly embedded:
Python dicts become association lists with in-place update, the filesystem
and the external Warp call become explicit parameters, and fatal errors /
uncaught exceptions become `Except` errors or an explicit fatal field.
-/

namespace ProbaV

/-- Association list with string keys and values, modelling a Python dict:
lookup finds the first binding, update replaces a present binding in place,
a new key is appended at the end (insertion order preserved). -/
abbrev Dict := List (String × String)

/-- Lookup of a key in a dict, first binding wins. -/
def lookupD : Dict → String → Option String
  | [], _ => none
  | p :: rest, k => if p.1 = k then some p.2 else lookupD rest k

/-- The update `d[k] = v` of a Python dict: replace the binding in place when
the key is present, append it otherwise. -/
def insertD : Dict → String → String → Dict
  | [], k, v => [(k, v)]
  | p :: rest, k, v => if p.1 = k then (k, v) :: rest else p :: insertD rest k v

/-- The deletion `del d[k]` of a Python dict (on a present key). -/
def eraseD (d : Dict) (k : String) : Dict :=
  d.filter (fun p => p.1 ≠ k)

/-- The keys of a dict, in order. -/
def keysD (d : Dict) : List String := d.map Prod.fst

/-- Substring containment on character lists, the semantics of the Python
channel test `needle in hay`. -/
def containsSub (needle : List Char) : List Char → Bool
  | [] => needle.isEmpty
  | c :: t => needle.isPrefixOf (c :: t) || containsSub needle t

/-- The Python test `needle in hay` on strings. -/
def containsStr (hay needle : String) : Bool :=
  containsSub needle.data hay.data

/-- Python `str.lower()` for the ASCII names this module handles, applied
characterwise. -/
def strToLower (s : String) : String :=
  ⟨s.data.map Char.toLower⟩

/-- Python `str.endswith(suff)`. -/
def strEndsWith (s suff : String) : Bool :=
  suff.data.isSuffixOf s.data

/-- Fuel-driven worker for `strSplitOn`: split the character list at every
non-overlapping occurrence of the (nonempty) separator, left to right. -/
def splitAuxF (sep : List Char) : Nat → List Char → List Char → List (List Char)
  | _, [], acc => [acc.reverse]
  | 0, cs, acc => [acc.reverse ++ cs]
  | Nat.succ n, c :: cs, acc =>
    if sep.isPrefixOf (c :: cs) then
      acc.reverse :: splitAuxF sep n (List.drop (sep.length - 1) cs) []
    else
      splitAuxF sep n cs (c :: acc)

/-- Python `str.split(sep)` for a nonempty separator (the module splits on
a slash, a space and the text EPSG:). -/
def strSplitOn (s sep : String) : List String :=
  if sep.data.isEmpty then [s]
  else (splitAuxF sep.data s.data.length s.data []).map (fun cs => ⟨cs⟩)

/-- Fuel-driven worker for `strReplace`. -/
def replaceAuxF (pat repl : List Char) : Nat → List Char → List Char
  | _, [] => []
  | 0, cs => cs
  | Nat.succ n, c :: cs =>
    if pat.isPrefixOf (c :: cs) then
      repl ++ replaceAuxF pat repl n (List.drop (pat.length - 1) cs)
    else
      c :: replaceAuxF pat repl n cs

/-- Python `str.replace(pat, repl)` for a nonempty pattern: replace every
non-overlapping occurrence, left to right. -/
def strReplace (s pat repl : String) : String :=
  if pat.data.isEmpty then s
  else ⟨replaceAuxF pat.data repl.data s.data.length s.data⟩

/-- Digit accumulator for `strToInt?`. -/
def natOfCharsAux (acc : Nat) : List Char → Option Nat
  | [] => some acc
  | c :: cs =>
    if c.isDigit then natOfCharsAux (acc * 10 + (c.toNat - 48)) cs else none

/-- Python `int(s)` for the plain decimal strings the year option takes. -/
def strToInt? (s : String) : Option Int :=
  match s.data with
  | [] => none
  | '-' :: cs =>
    if cs.isEmpty then none else (natOfCharsAux 0 cs).map (fun n => -(n : Int))
  | cs => (natOfCharsAux 0 cs).map (fun n => (n : Int))

/-- `os.path.basename` for the forward-slash paths (URLs) the module handles:
everything after the last slash. -/
def basenameOf (p : String) : String :=
  (strSplitOn p "/").getLastD p

/-- `os.path.join a b` for a relative second component. -/
def pathJoin (a b : String) : String := a ++ "/" ++ b

/-- The parsed options of the module: the fifteen product output names, the
download directory and the year, each the empty string when not given
(Python truthiness of the option value is being nonempty). -/
structure Options where
  bare_coverfraction_output : String
  builtup_coverfraction_output : String
  crops_coverfraction_output : String
  change_confidence_output : String
  data_density_indicator_output : String
  discrete_classification_output : String
  discrete_classification_proba_output : String
  forest_type_output : String
  grass_coverfraction_output : String
  moss_lichen_coverfraction_output : String
  permanent_water_coverfraction_output : String
  seasonal_water_coverfraction_output : String
  shrub_coverfraction_output : String
  snow_coverfraction_output : String
  tree_coverfraction_output : String
  directory : String
  year : String
deriving DecidableEq

/-- The fifteen product blocks of `get_filenames`, in source order: the
substring looked for in the lower-cased filename, paired with the value of
the corresponding output option. -/
def productSpecs (opts : Options) : List (String × String) :=
  [ ("discrete-classification-map", opts.discrete_classification_output),
    ("bare-coverfraction", opts.bare_coverfraction_output),
    ("builtup-coverfraction", opts.builtup_coverfraction_output),
    ("crops-coverfraction", opts.crops_coverfraction_output),
    ("change-confidence", opts.change_confidence_output),
    ("datadensityindicator", opts.data_density_indicator_output),
    ("discrete-classification-proba", opts.discrete_classification_proba_output),
    ("forest-type", opts.forest_type_output),
    ("grass-coverfraction", opts.grass_coverfraction_output),
    ("mosslichen-coverfraction", opts.moss_lichen_coverfraction_output),
    ("permanentwater-coverfraction", opts.permanent_water_coverfraction_output),
    ("seasonalwater-coverfraction", opts.seasonal_water_coverfraction_output),
    ("shrub-coverfraction", opts.shrub_coverfraction_output),
    ("snow-coverfraction", opts.snow_coverfraction_output),
    ("tree-coverfraction", opts.tree_coverfraction_output) ]

/-- One product block of `get_filenames`: when the output option is set, walk
all filenames and record those whose lower-cased name contains the product
substring. -/
def productBlock (allfilenames : List String) (d : Dict) (spec : String × String) : Dict :=
  if spec.2 ≠ "" then
    allfilenames.foldl
      (fun d2 entry => if containsStr (strToLower entry) spec.1 then insertD d2 entry spec.2 else d2)
      d
  else d

/-- `get_filenames(allfilenames)`: the fifteen product blocks run in source
order over an initially empty dict. -/
def get_filenames (opts : Options) (allfilenames : List String) : Dict :=
  (productSpecs opts).foldl (productBlock allfilenames) []

/-- The `urls` dict of `main`: the nonempty lines of the url file that end in
`.tif`, keyed by their basename. -/
def urlsDict (url_lines : List String) : Dict :=
  (url_lines.filter (fun x => decide (x ≠ "") && strEndsWith x ".tif")).foldl
    (fun d x => insertD d (basenameOf x) x) []

/-- The `md5sums` dict of `main`: each nonempty line of md5sums.txt maps its
last space-separated field (the filename) to its first (the checksum). -/
def md5Dict (md5_lines : List String) : Dict :=
  (md5_lines.filter (fun x => decide (x ≠ ""))).foldl
    (fun d x => insertD d ((strSplitOn x " ").getLastD "") ((strSplitOn x " ").headD "")) []

/-- The `records` dict: Zenodo record identifier for each supported year. -/
def records : Dict :=
  [ ("2015", "3939038"),
    ("2016", "3518026"),
    ("2017", "3518036"),
    ("2018", "3518038"),
    ("2019", "3939050") ]

/-- The values the year option accepts, per its declared range 2015-2019. -/
def yearOptionValues : List String :=
  (List.range' 2015 5).map (fun n => toString n)

/-- `str(int(options["year"]))` as used to build the per-year directory. -/
def yearStr (opts : Options) : String :=
  toString ((strToInt? opts.year).getD 0)

/-- The filesystem tests the module performs, as oracle functions. -/
structure FS where
  isDir : String → Bool
  isFile : String → Bool

/-- The per-file download decision loop of `main` (the branch where the
per-year download directory already exists): a file is added to
`files_to_download` when its local copy is missing, or no old checksum is
recorded for it, or the recorded checksum differs from the remote one; the
remote checksum lookup `md5sums[filename]` can raise `KeyError`. -/
def filesLoopAux (fs : FS) (download_dir : String) (old md5sums : Dict) :
    Dict → List String → Except String Dict
  | acc, [] => Except.ok acc
  | acc, filename :: rest =>
    let tif_path := pathJoin download_dir filename
    if fs.isFile tif_path then
      match lookupD old filename with
      | some oldsum =>
        match lookupD md5sums filename with
        | some cursum =>
          if cursum ≠ oldsum then
            filesLoopAux fs download_dir old md5sums (insertD acc filename tif_path) rest
          else
            filesLoopAux fs download_dir old md5sums acc rest
        | none => Except.error ("KeyError: " ++ filename)
      | none => filesLoopAux fs download_dir old md5sums (insertD acc filename tif_path) rest
    else filesLoopAux fs download_dir old md5sums (insertD acc filename tif_path) rest

/-- The state `main` has built after the download-directory block: the
resolved download directory, `files_to_download`, and the loaded
`old_md5sums`. -/
structure SetupResult where
  download_dir : String
  files_to_download : Dict
  old_md5sums : Dict
deriving DecidableEq

/-- The download-directory block of `main` (lines 329-369): with a directory
option the per-year directory is used, everything is scheduled when it does
not exist yet, otherwise the decision loop runs against the pickled old
checksums; without a directory option a temporary directory is used and
everything is scheduled. -/
def downloadSetup (opts : Options) (fs : FS) (pickled : Dict)
    (tmp_download_dir : String) (filenames : Dict) (md5sums : Dict) :
    Except String SetupResult :=
  if opts.directory ≠ "" then
    let ddir := pathJoin opts.directory (yearStr opts)
    if ¬ fs.isDir ddir then
      Except.ok ⟨ddir, filenames.map (fun p => (p.1, pathJoin ddir p.1)), []⟩
    else
      let old := if fs.isFile (pathJoin ddir "md5sums.pkl") then pickled else []
      match filesLoopAux fs ddir old md5sums [] (keysD filenames) with
      | Except.ok ftd => Except.ok ⟨ddir, ftd, old⟩
      | Except.error e => Except.error e
  else
    Except.ok ⟨tmp_download_dir, filenames.map (fun p => (p.1, pathJoin tmp_download_dir p.1)), []⟩

/-- The scheduled downloads of a setup outcome (empty on an aborted run). -/
def ftdOf : Except String SetupResult → Dict
  | Except.ok r => r.files_to_download
  | Except.error _ => []

/-- The loaded old checksums of a setup outcome (empty on an aborted run). -/
def oldOf : Except String SetupResult → Dict
  | Except.ok r => r.old_md5sums
  | Except.error _ => []

/-- The parameters `main` passes to `gdal.Warp`, as far as the module sets
them. Bounds and resolutions are modelled as rationals (the Python floats
involved are only built, compared and min/maxed, never rounded). -/
structure WarpKwargs where
  dstSRS : String
  srcSRS : String
  outputBoundsSRS : String
  outputBounds : ℚ × ℚ × ℚ × ℚ
  xRes : Option ℚ
  yRes : Option ℚ
  targetAlignedPixels : Bool
deriving DecidableEq

/-- The current region as parsed from `g.region -pagu`. -/
structure Region where
  n : ℚ
  s : ℚ
  e : ℚ
  w : ℚ
deriving DecidableEq

/-- The EPSG code `main` derives from the `g.proj -g` output: the value of
the `epsg` key when present, otherwise field 1 of the `srid` value split on
the text `EPSG:`; `none` models the uncaught KeyError / IndexError. -/
def epsgOf (proj : Dict) : Option String :=
  match lookupD proj "epsg" with
  | some e => some e
  | none =>
    match lookupD proj "srid" with
    | some srid => (strSplitOn srid "EPSG:").get? 1
    | none => none

/-- The keyword arguments `main` computes for `gdal.Warp` from the current
projection and region (lines 391-411). -/
def computeWarpKwargs (proj : Dict) (region : Region) : Option WarpKwargs :=
  match epsgOf proj with
  | none => none
  | some epsg =>
    match lookupD proj "unit" with
    | none => none
    | some u =>
      let dst := "EPSG:" ++ epsg
      let isMeter := decide (strToLower u = "meter")
      some { dstSRS := dst
             srcSRS := "EPSG:4326"
             outputBoundsSRS := dst
             outputBounds := (min region.e region.w, min region.n region.s,
                              max region.e region.w, max region.n region.s)
             xRes := if isMeter then some 100 else none
             yRes := if isMeter then some 100 else none
             targetAlignedPixels := isMeter }

/-- The observable actions of one run, in program order. -/
inductive Event where
  | resolveDataset (record : String)
  | fetchRemote
  | decideFiles
  | download (file : String) (path : String)
  | warp (inpath : String) (outpath : String) (kwargs : WarpKwargs)
  | importRaster (input : String) (output : String)
  | annotateCategories (map : String) (rules : String)
deriving DecidableEq

/-- The download loop of `main` (lines 371-375): each scheduled file is
fetched from its url to its path, and when the file is then on disk its
remote checksum is recorded into `old_md5sums`; dict lookups can raise
`KeyError`. Returns the updated checksum dict and the download events. -/
def downloadLoop (urls md5sums : Dict) (dlExists : String → Bool) :
    Dict → Dict → Except String (Dict × List Event)
  | old, [] => Except.ok (old, [])
  | old, fp :: rest =>
    match lookupD urls fp.1 with
    | none => Except.error ("KeyError: " ++ fp.1)
    | some _ =>
      if dlExists fp.2 then
        match lookupD md5sums fp.1 with
        | none => Except.error ("KeyError: " ++ fp.1)
        | some m =>
          match downloadLoop urls md5sums dlExists (insertD old fp.1 m) rest with
          | Except.ok pr => Except.ok (pr.1, Event.download fp.1 fp.2 :: pr.2)
          | Except.error e => Except.error e
      else
        match downloadLoop urls md5sums dlExists old rest with
        | Except.ok pr => Except.ok (pr.1, Event.download fp.1 fp.2 :: pr.2)
        | Except.error e => Except.error e

/-- The persistence step of `main` (lines 377-381): md5sums.pkl is written
with the updated checksum dict exactly when a file was scheduled and a
directory option was given; `none` means the file is not touched. -/
def persistedMd5sums (opts : Options) (files_to_download : Dict)
    (new_md5sums : Dict) : Option Dict :=
  if files_to_download.length > 0 ∧ opts.directory ≠ "" then some new_md5sums else none

/-- The behaviour of the external `gdal.Warp` call and of the filesystem
after it: whether the call raises for an input path, and whether an output
path exists afterwards. -/
structure WarpEnv where
  raises : String → Bool
  outExists : String → Bool

/-- The trace of a (partial) run together with the fatal message that ended
it, when one did. -/
structure RunResult where
  trace : List Event
  fatal : Option String
deriving DecidableEq

/-- The warped output path `tmp_dir/<file without .tif>_<pid>.tif`. -/
def outpathOf (tmp_dir pid file : String) : String :=
  pathJoin tmp_dir (strReplace file ".tif" "" ++ "_" ++ pid ++ ".tif")

/-- The reprojection and import loop of `main` (lines 383-429): for each
selected file the warp parameters are computed and `gdal.Warp` is called; a
raised exception or a missing output file is fatal, otherwise `r.import`
registers the warped file under the chosen output name. -/
def warpLoop (we : WarpEnv) (proj : Dict) (region : Region)
    (tmp_dir download_dir pid : String) : List (String × String) → RunResult
  | [] => ⟨[], none⟩
  | (file, out_name) :: rest =>
    let inpath := pathJoin download_dir file
    let outpath := outpathOf tmp_dir pid file
    match computeWarpKwargs proj region with
    | none => ⟨[], some "uncaught KeyError or IndexError while computing projection parameters"⟩
    | some kw =>
      if we.raises inpath then
        ⟨[Event.warp inpath outpath kw], some ("Reprojection of Scene " ++ inpath ++ " failed.")⟩
      else if ¬ we.outExists outpath then
        ⟨[Event.warp inpath outpath kw], some ("Reprojection of Scene " ++ inpath ++ " failed.")⟩
      else
        let r := warpLoop we proj region tmp_dir download_dir pid rest
        ⟨Event.warp inpath outpath kw :: Event.importRaster outpath out_name :: r.trace, r.fatal⟩

/-- The class-code dictionary of `categories_for_discrete_classification`,
in source order. -/
def discrete_classification_coding : List (String × String) :=
  [ ("0", "No inputdata available"),
    ("111", "Closed forest, evergreen needle leaf"),
    ("113", "Closed forest, deciduous needle leaf"),
    ("112", "Closed forest, evergreen, broad leaf"),
    ("114", "Closed forest, deciduous broad leaf"),
    ("115", "Closed forest, mixed"),
    ("116", "Closed forest, unknown"),
    ("121", "Open forest, evergreen needle leaf"),
    ("123", "Open forest, deciduous needle leaf"),
    ("122", "Open forest, evergreen broad leaf"),
    ("124", "Open forest, deciduous broad leaf"),
    ("125", "Open forest, mixed"),
    ("126", "Open forest, unknown"),
    ("20", "Shrubs"),
    ("30", "Herbaceous vegetation"),
    ("90", "Herbaceous wetland"),
    ("100", "Moss and lichen"),
    ("60", "Bare / sparse vegetation"),
    ("40", "Cultivated and managed vegetation/agriculture (cropland)"),
    ("50", "Urban/ built up"),
    ("70", "Snow and Ice"),
    ("80", "Permanent water bodies"),
    ("200", "Open sea") ]

/-- The rules text fed to `r.category`: one `code|label` line per entry, in
dictionary order. -/
def categoryText : String :=
  discrete_classification_coding.foldl (fun acc p => acc ++ p.1 ++ "|" ++ p.2 ++ "\n") ""

/-- The whole of `main` as a trace-producing function. External effects are
oracles: the filesystem before the downloads (`fs`), the pickled checksum
dict, the url and md5 file contents, the filesystem after each download
(`dlExists`), the warp behaviour (`we`), and the projection and region of
the current location. -/
def mainRun (opts : Options) (fs : FS) (pickled : Dict)
    (url_lines md5_lines : List String) (dlExists : String → Bool)
    (we : WarpEnv) (proj : Dict) (region : Region)
    (tmp_dir tmp_download_dir pid : String) : RunResult :=
  match lookupD records opts.year with
  | none => ⟨[], some ("KeyError: " ++ opts.year)⟩
  | some record =>
    let pre := [Event.resolveDataset record, Event.fetchRemote]
    let urls := urlsDict url_lines
    let filenames := get_filenames opts (keysD urls)
    let md5sums := md5Dict md5_lines
    match downloadSetup opts fs pickled tmp_download_dir filenames md5sums with
    | Except.error e => ⟨pre, some e⟩
    | Except.ok res =>
      match downloadLoop urls md5sums dlExists res.old_md5sums res.files_to_download with
      | Except.error e => ⟨pre ++ [Event.decideFiles], some e⟩
      | Except.ok pr =>
        let wl := warpLoop we proj region tmp_dir res.download_dir pid filenames
        match wl.fatal with
        | some m => ⟨pre ++ [Event.decideFiles] ++ pr.2 ++ wl.trace, some m⟩
        | none =>
          let annEvs :=
            if opts.discrete_classification_output ≠ "" then
              [Event.annotateCategories opts.discrete_classification_output categoryText]
            else []
          ⟨pre ++ [Event.decideFiles] ++ pr.2 ++ wl.trace ++ annEvs, none⟩

/-- The saved-at-start environment values and the `cleanup` function
(lines 152-184): `GDAL_CACHEMAX` and `COMPRESS_OVERVIEW` are restored when
a start value was saved; otherwise the module deletes the variable after
testing the presence of the OTHER variable, and `del` on an absent key
raises `KeyError`. -/
def cleanupEnv (savedCO savedGC : Option String) (env : Dict) : Except String Dict :=
  let step1 : Except String Dict :=
    match savedCO with
    | some v => Except.ok (insertD env "COMPRESS_OVERVIEW" v)
    | none =>
      if (lookupD env "GDAL_CACHEMAX").isSome then
        match lookupD env "COMPRESS_OVERVIEW" with
        | some _ => Except.ok (eraseD env "COMPRESS_OVERVIEW")
        | none => Except.error "KeyError: COMPRESS_OVERVIEW"
      else Except.ok env
  match step1 with
  | Except.error e => Except.error e
  | Except.ok env1 =>
    match savedGC with
    | some v => Except.ok (insertD env1 "GDAL_CACHEMAX" v)
    | none =>
      if (lookupD env1 "COMPRESS_OVERVIEW").isSome then
        match lookupD env1 "GDAL_CACHEMAX" with
        | some _ => Except.ok (eraseD env1 "GDAL_CACHEMAX")
        | none => Except.error "KeyError: GDAL_CACHEMAX"
      else Except.ok env1

/-- Event class tests for the ordering statements. -/
def isDownloadE : Event → Bool
  | Event.download _ _ => true
  | _ => false

/-- Test for a warp event. -/
def isWarpE : Event → Bool
  | Event.warp _ _ _ => true
  | _ => false

/-- Test for an import event. -/
def isImportE : Event → Bool
  | Event.importRaster _ _ => true
  | _ => false

/-- Test for a category-annotation event. -/
def isAnnotateE : Event → Bool
  | Event.annotateCategories _ _ => true
  | _ => false

/-- Test for the dataset-resolution event. -/
def isResolveE : Event → Bool
  | Event.resolveDataset _ => true
  | _ => false

/-- Test for the remote-fetch event. -/
def isFetchE : Event → Bool
  | Event.fetchRemote => true
  | _ => false

/-- Test for the download-decision event. -/
def isDecideE : Event → Bool
  | Event.decideFiles => true
  | _ => false

/-- Every annotation event in a trace targets the map `m` with the rules
text `r`; other events pass. -/
def annotateOnly (m r : String) (e : Event) : Bool :=
  match e with
  | Event.annotateCategories m2 r2 => decide (m2 = m) && decide (r2 = r)
  | _ => true

/-- In a trace, every `p` event occurs before every `q` event: once a `q`
event has happened, no `p` event follows. -/
def allBefore (p q : Event → Bool) : List Event → Bool
  | [] => true
  | e :: rest => (if q e then rest.all (fun x => ! p x) else true) && allBefore p q rest

/-- Every warp event is followed immediately by the import of its output
file. -/
def warpsImmediatelyImported : List Event → Bool
  | [] => true
  | Event.warp _ o _ :: rest =>
    (match rest with
     | Event.importRaster i _ :: _ => decide (i = o)
     | _ => false) && warpsImmediatelyImported rest
  | _ :: rest => warpsImmediatelyImported rest

/-- The scheduling condition of the decision loop, for one file: local copy
missing, or no recorded checksum, or recorded and remote checksums differ. -/
def wantFile (fs : FS) (download_dir : String) (old md5sums : Dict) (f : String) : Prop :=
  fs.isFile (pathJoin download_dir f) = false ∨ lookupD old f = none ∨
    lookupD md5sums f ≠ lookupD old f

/-- The trace the reprojection loop is expected to produce on a fully
successful run: a warp immediately followed by an import, per file. -/
def warpTraceOf (kw : WarpKwargs) (tmp_dir download_dir pid : String) :
    List (String × String) → List Event
  | [] => []
  | fp :: rest =>
    Event.warp (pathJoin download_dir fp.1) (outpathOf tmp_dir pid fp.1) kw ::
      Event.importRaster (outpathOf tmp_dir pid fp.1) fp.2 ::
        warpTraceOf kw tmp_dir download_dir pid rest

/-- The events `e1` and `e2` occur adjacently, in this order, in the list. -/
def adjacentIn (e1 e2 : Event) : List Event → Bool
  | [] => false
  | [_] => false
  | a :: b :: rest => (a == e1 && b == e2) || adjacentIn e1 e2 (b :: rest)

/-- The value the product blocks up to this point assign to a filename:
the substring test of the LAST matching block with a set option wins,
since a later in-place dict update overwrites an earlier one. -/
def lastMatchValue (allf : List String) (g : String) : List (String × String) → Option String
  | [] => none
  | s :: rest =>
    match lastMatchValue allf g rest with
    | some v => some v
    | none =>
      if g ∈ allf ∧ s.2 ≠ "" ∧ containsStr (strToLower g) s.1 = true then some s.2 else none

/-! Concrete fixtures used to evaluate the theorems on closed inputs. -/

/-- A concrete option set: discrete classification requested, cached
downloads under directory d, year 2019. -/
def optsW : Options :=
  ⟨"", "", "", "", "", "dc_out", "", "", "", "", "", "", "", "", "", "d", "2019"⟩

/-- A concrete filesystem: every directory exists, no file exists yet. -/
def fsW : FS := ⟨fun _ => true, fun _ => false⟩

/-- A concrete warp behaviour: no exception, output always produced. -/
def weW : WarpEnv := ⟨fun _ => false, fun _ => true⟩

/-- A concrete warp behaviour in which every warp call raises. -/
def weFailW : WarpEnv := ⟨fun _ => true, fun _ => true⟩

/-- A concrete projection: EPSG 25832, meter unit. -/
def projW : Dict := [("epsg", "25832"), ("unit", "meter")]

/-- A concrete region. -/
def regionW : Region := ⟨60, 50, 10, 5⟩

/-- The basename of the single remote file of the fixture. -/
def fnameW : String := "ProbaV_LC100_discrete-classification-map_2019.tif"

/-- The single url line of the fixture. -/
def urlLinesW : List String := ["https://zenodo.org/a/" ++ fnameW]

/-- The single md5sums.txt line of the fixture. -/
def md5LinesW : List String := ["abc123 " ++ fnameW]

/-- The warp parameters of the fixture projection and region. -/
def kwW : WarpKwargs :=
  ⟨"EPSG:25832", "EPSG:4326", "EPSG:25832", (5, 50, 10, 60),
    some 100, some 100, true⟩

/-! Basic dictionary lemmas. -/

theorem lookupD_insertD (d : Dict) (k v g : String) :
    lookupD (insertD d k v) g = if g = k then some v else lookupD d g := by
  induction d with
  | nil =>
    simp only [insertD, lookupD]
    by_cases h : g = k
    · subst h; simp
    · rw [if_neg (fun e => h e.symm), if_neg h]
  | cons p rest ih =>
    simp only [insertD]
    by_cases hpk : p.1 = k
    · rw [if_pos hpk]
      by_cases h : g = k
      · subst h; simp [lookupD]
      · simp only [lookupD, if_neg h]
        rw [if_neg (fun e : p.1 = g => h (e.symm.trans hpk)),
          if_neg (fun e : k = g => h e.symm)]
    · rw [if_neg hpk]
      simp only [lookupD, ih]
      by_cases hpg : p.1 = g
      · rw [if_pos hpg, if_pos hpg, if_neg (fun e : g = k => hpk (hpg.trans e))]
      · rw [if_neg hpg, if_neg hpg]

theorem mem_insertD {q : String × String} {d : Dict} {k v : String}
    (h : q ∈ insertD d k v) : q ∈ d ∨ q = (k, v) := by
  induction d with
  | nil => simp only [insertD, List.mem_singleton] at h; exact Or.inr h
  | cons p rest ih =>
    simp only [insertD] at h
    by_cases hpk : p.1 = k
    · rw [if_pos hpk] at h
      rcases List.mem_cons.mp h with h1 | h1
      · exact Or.inr h1
      · exact Or.inl (List.mem_cons_of_mem _ h1)
    · rw [if_neg hpk] at h
      rcases List.mem_cons.mp h with h1 | h1
      · exact Or.inl (h1 ▸ List.mem_cons_self _ _)
      · rcases ih h1 with h2 | h2
        · exact Or.inl (List.mem_cons_of_mem _ h2)
        · exact Or.inr h2

theorem lookupD_isSome_iff {d : Dict} {g : String} :
    (lookupD d g).isSome = true ↔ g ∈ keysD d := by
  induction d with
  | nil => simp [lookupD, keysD]
  | cons p rest ih =>
    simp only [lookupD, keysD, List.map_cons, List.mem_cons]
    by_cases hpg : p.1 = g
    · simp [hpg]
    · rw [if_neg hpg]
      simp only [keysD] at ih
      constructor
      · intro hs; exact Or.inr (ih.mp hs)
      · intro hs
        rcases hs with h1 | h1
        · exact absurd h1.symm hpg
        · exact ih.mpr h1

theorem keysD_mapPath (d : Dict) (f : String → String) :
    keysD (d.map (fun p => (p.1, f p.1))) = keysD d := by
  induction d with
  | nil => rfl
  | cons p rest ih => simp only [keysD, List.map_cons] at ih ⊢; rw [ih]

theorem filesLoopAux_spec (fs : FS) (ddir : String) (old md5sums : Dict)
    (l : List String) : ∀ acc : Dict,
    (∀ f ∈ l, (lookupD md5sums f).isSome = true) →
    ∃ d, filesLoopAux fs ddir old md5sums acc l = Except.ok d ∧
      (∀ g, (lookupD d g).isSome = true ↔
        ((lookupD acc g).isSome = true ∨ (g ∈ l ∧ wantFile fs ddir old md5sums g))) ∧
      (∀ q ∈ d, q ∈ acc ∨ q.2 = pathJoin ddir q.1) := by
  induction l with
  | nil =>
    intro acc _
    exact ⟨acc, rfl, by simp [filesLoopAux], fun q hq => Or.inl hq⟩
  | cons f rest ih =>
    intro acc hmd5
    have hmd5r : ∀ g ∈ rest, (lookupD md5sums g).isSome = true :=
      fun g hg => hmd5 g (List.mem_cons_of_mem _ hg)
    have step :
        ∀ d2 : Dict, filesLoopAux fs ddir old md5sums d2 rest = Except.ok d2 ∨ True := by
      intro d2; exact Or.inr trivial
    by_cases hisf : fs.isFile (pathJoin ddir f) = true
    · cases hold : lookupD old f with
      | none =>
        obtain ⟨d, hd, hlook, hmem⟩ := ih (insertD acc f (pathJoin ddir f)) hmd5r
        have hwf : wantFile fs ddir old md5sums f := Or.inr (Or.inl hold)
        refine ⟨d, ?_, ?_, ?_⟩
        · simpa [filesLoopAux, hisf, hold] using hd
        · intro g
          rw [hlook g, lookupD_insertD]
          by_cases hgf : g = f
          · subst hgf; simp [hwf]
          · simp only [if_neg hgf, List.mem_cons]
            constructor
            · rintro (h1 | ⟨h1, h2⟩)
              · exact Or.inl h1
              · exact Or.inr ⟨Or.inr h1, h2⟩
            · rintro (h1 | ⟨h1 | h1, h2⟩)
              · exact Or.inl h1
              · exact absurd h1 hgf
              · exact Or.inr ⟨h1, h2⟩
        · intro q hq
          rcases hmem q hq with h1 | h1
          · rcases mem_insertD h1 with h2 | h2
            · exact Or.inl h2
            · subst h2; exact Or.inr rfl
          · exact Or.inr h1
      | some oldsum =>
        obtain ⟨cursum, hcur⟩ := Option.isSome_iff_exists.mp (hmd5 f (List.mem_cons_self _ _))
        by_cases hne : cursum = oldsum
        · subst hne
          have hnwf : ¬ wantFile fs ddir old md5sums f := by
            simp [wantFile, hold, hcur, hisf]
          obtain ⟨d, hd, hlook, hmem⟩ := ih acc hmd5r
          refine ⟨d, ?_, ?_, hmem⟩
          · simpa [filesLoopAux, hisf, hold, hcur] using hd
          · intro g
            rw [hlook g]
            by_cases hgf : g = f
            · subst hgf; simp [hnwf]
            · simp only [List.mem_cons]
              constructor
              · rintro (h1 | ⟨h1, h2⟩)
                · exact Or.inl h1
                · exact Or.inr ⟨Or.inr h1, h2⟩
              · rintro (h1 | ⟨h1 | h1, h2⟩)
                · exact Or.inl h1
                · exact absurd h1 hgf
                · exact Or.inr ⟨h1, h2⟩
        · have hwf : wantFile fs ddir old md5sums f := by
            rw [wantFile, hold, hcur]
            exact Or.inr (Or.inr (by simp [hne]))
          obtain ⟨d, hd, hlook, hmem⟩ := ih (insertD acc f (pathJoin ddir f)) hmd5r
          refine ⟨d, ?_, ?_, ?_⟩
          · simpa [filesLoopAux, hisf, hold, hcur, hne] using hd
          · intro g
            rw [hlook g, lookupD_insertD]
            by_cases hgf : g = f
            · subst hgf; simp [hwf]
            · simp only [if_neg hgf, List.mem_cons]
              constructor
              · rintro (h1 | ⟨h1, h2⟩)
                · exact Or.inl h1
                · exact Or.inr ⟨Or.inr h1, h2⟩
              · rintro (h1 | ⟨h1 | h1, h2⟩)
                · exact Or.inl h1
                · exact absurd h1 hgf
                · exact Or.inr ⟨h1, h2⟩
          · intro q hq
            rcases hmem q hq with h1 | h1
            · rcases mem_insertD h1 with h2 | h2
              · exact Or.inl h2
              · subst h2; exact Or.inr rfl
            · exact Or.inr h1
    · have hisf2 : fs.isFile (pathJoin ddir f) = false := by
        cases h : fs.isFile (pathJoin ddir f)
        · rfl
        · exact absurd h hisf
      have hwf : wantFile fs ddir old md5sums f := Or.inl hisf2
      obtain ⟨d, hd, hlook, hmem⟩ := ih (insertD acc f (pathJoin ddir f)) hmd5r
      refine ⟨d, ?_, ?_, ?_⟩
      · simpa [filesLoopAux, hisf2] using hd
      · intro g
        rw [hlook g, lookupD_insertD]
        by_cases hgf : g = f
        · subst hgf; simp [hwf]
        · simp only [if_neg hgf, List.mem_cons]
          constructor
          · rintro (h1 | ⟨h1, h2⟩)
            · exact Or.inl h1
            · exact Or.inr ⟨Or.inr h1, h2⟩
          · rintro (h1 | ⟨h1 | h1, h2⟩)
            · exact Or.inl h1
            · exact absurd h1 hgf
            · exact Or.inr ⟨h1, h2⟩
      · intro q hq
        rcases hmem q hq with h1 | h1
        · rcases mem_insertD h1 with h2 | h2
          · exact Or.inl h2
          · subst h2; exact Or.inr rfl
        · exact Or.inr h1

theorem filesLoopAux_keys (fs : FS) (ddir : String) (old md5sums : Dict)
    (l : List String) : ∀ acc d : Dict,
    filesLoopAux fs ddir old md5sums acc l = Except.ok d →
    ∀ g, (lookupD d g).isSome = true → (lookupD acc g).isSome = true ∨ g ∈ l := by
  induction l with
  | nil =>
    intro acc d hd g hg
    simp only [filesLoopAux] at hd
    cases hd
    exact Or.inl hg
  | cons f rest ih =>
    intro acc d hd g hg
    have hins : ∀ h2 : (lookupD (insertD acc f (pathJoin ddir f)) g).isSome = true,
        (lookupD acc g).isSome = true ∨ g ∈ f :: rest := by
      intro h2
      rw [lookupD_insertD] at h2
      by_cases hgf : g = f
      · exact Or.inr (hgf ▸ List.mem_cons_self _ _)
      · rw [if_neg hgf] at h2; exact Or.inl h2
    by_cases hisf : fs.isFile (pathJoin ddir f) = true
    · cases hold : lookupD old f with
      | none =>
        simp only [filesLoopAux, hisf, hold, if_true] at hd
        rcases ih _ _ hd g hg with h1 | h1
        · exact hins h1
        · exact Or.inr (List.mem_cons_of_mem _ h1)
      | some oldsum =>
        cases hcur : lookupD md5sums f with
        | none => simp [filesLoopAux, hisf, hold, hcur] at hd
        | some cursum =>
          by_cases hne : cursum = oldsum
          · subst hne
            simp only [filesLoopAux, hisf, hold, hcur, if_true, ne_eq,
              not_true_eq_false, if_false, ite_self] at hd
            rcases ih _ _ hd g hg with h1 | h1
            · exact Or.inl h1
            · exact Or.inr (List.mem_cons_of_mem _ h1)
          · simp only [filesLoopAux, hisf, hold, hcur, if_true, ne_eq, hne,
              not_false_eq_true, if_true] at hd
            rcases ih _ _ hd g hg with h1 | h1
            · exact hins h1
            · exact Or.inr (List.mem_cons_of_mem _ h1)
    · have hisf2 : fs.isFile (pathJoin ddir f) = false := by
        cases h : fs.isFile (pathJoin ddir f)
        · rfl
        · exact absurd h hisf
      simp only [filesLoopAux, hisf2, Bool.false_eq_true, if_false] at hd
      rcases ih _ _ hd g hg with h1 | h1
      · exact hins h1
      · exact Or.inr (List.mem_cons_of_mem _ h1)

theorem downloadLoop_spec (urls md5sums : Dict) (dlExists : String → Bool)
    (l : Dict) : ∀ old : Dict,
    (∀ f ∈ keysD l, (lookupD urls f).isSome = true) →
    (∀ f ∈ keysD l, (lookupD md5sums f).isSome = true) →
    ∃ pr, downloadLoop urls md5sums dlExists old l = Except.ok pr ∧
      pr.2 = l.map (fun fp => Event.download fp.1 fp.2) ∧
      (∀ g, g ∉ keysD l → lookupD pr.1 g = lookupD old g) ∧
      ((keysD l).Nodup → ∀ fp ∈ l, lookupD pr.1 fp.1 =
        (if dlExists fp.2 = true then lookupD md5sums fp.1 else lookupD old fp.1)) := by
  induction l with
  | nil =>
    intro old _ _
    exact ⟨(old, []), rfl, rfl, fun g _ => rfl, fun _ fp hfp => absurd hfp (List.not_mem_nil _)⟩
  | cons fp rest ih =>
    intro old hurls hmd5
    have hfk : fp.1 ∈ keysD (fp :: rest) := by simp [keysD]
    have hurlr : ∀ f ∈ keysD rest, (lookupD urls f).isSome = true := by
      intro f hf; exact hurls f (by simp [keysD] at hf ⊢; exact Or.inr hf)
    have hmd5r : ∀ f ∈ keysD rest, (lookupD md5sums f).isSome = true := by
      intro f hf; exact hmd5 f (by simp [keysD] at hf ⊢; exact Or.inr hf)
    obtain ⟨u, hu⟩ := Option.isSome_iff_exists.mp (hurls fp.1 hfk)
    by_cases hdl : dlExists fp.2 = true
    · obtain ⟨m, hm⟩ := Option.isSome_iff_exists.mp (hmd5 fp.1 hfk)
      obtain ⟨pr, hpr, hevs, hout, hper⟩ := ih (insertD old fp.1 m) hurlr hmd5r
      refine ⟨(pr.1, Event.download fp.1 fp.2 :: pr.2), ?_, ?_, ?_, ?_⟩
      · simp [downloadLoop, hu, hdl, hm, hpr]
      · simp [hevs]
      · intro g hg
        have hg1 : g ≠ fp.1 := by
          intro e; exact hg (e ▸ hfk)
        have hg2 : g ∉ keysD rest := by
          intro e; exact hg (by simp [keysD] at e ⊢; exact Or.inr e)
        rw [hout g hg2, lookupD_insertD, if_neg hg1]
      · intro hnd fq hfq
        have hnd2 : fp.1 ∉ keysD rest ∧ (keysD rest).Nodup := by
          simpa [keysD] using hnd
        rcases List.mem_cons.mp hfq with h1 | h1
        · subst h1
          rw [hout fq.1 hnd2.1, lookupD_insertD, if_pos rfl, if_pos hdl, hm]
        · have hne : fq.1 ≠ fp.1 := by
            intro e
            exact hnd2.1 (e ▸ (by simp only [keysD]; exact List.mem_map_of_mem _ h1))
          rw [hper hnd2.2 fq h1, lookupD_insertD, if_neg hne]
    · obtain ⟨pr, hpr, hevs, hout, hper⟩ := ih old hurlr hmd5r
      refine ⟨(pr.1, Event.download fp.1 fp.2 :: pr.2), ?_, ?_, ?_, ?_⟩
      · simp [downloadLoop, hu, hdl, hpr]
      · simp [hevs]
      · intro g hg
        have hg2 : g ∉ keysD rest := by
          intro e; exact hg (by simp [keysD] at e ⊢; exact Or.inr e)
        exact hout g hg2
      · intro hnd fq hfq
        have hnd2 : fp.1 ∉ keysD rest ∧ (keysD rest).Nodup := by
          simpa [keysD] using hnd
        rcases List.mem_cons.mp hfq with h1 | h1
        · subst h1
          rw [hout fq.1 hnd2.1, if_neg hdl]
        · rw [hper hnd2.2 fq h1]

theorem warpLoop_ok (we : WarpEnv) (proj : Dict) (region : Region)
    (tmp_dir download_dir pid : String) (kw : WarpKwargs)
    (hkw : computeWarpKwargs proj region = some kw) :
    ∀ l : List (String × String),
    (∀ fp ∈ l, we.raises (pathJoin download_dir fp.1) = false ∧
      we.outExists (outpathOf tmp_dir pid fp.1) = true) →
    warpLoop we proj region tmp_dir download_dir pid l =
      ⟨warpTraceOf kw tmp_dir download_dir pid l, none⟩ := by
  intro l
  induction l with
  | nil => intro _; rfl
  | cons fp rest ih =>
    intro hsucc
    obtain ⟨f, o⟩ := fp
    obtain ⟨hr, ho⟩ := hsucc (f, o) (List.mem_cons_self _ _)
    have hrest := ih (fun fq hq => hsucc fq (List.mem_cons_of_mem _ hq))
    simp [warpLoop, hkw, hr, ho, hrest, warpTraceOf]

theorem warpLoop_reach (we : WarpEnv) (proj : Dict) (region : Region)
    (tmp_dir download_dir pid : String) (kw : WarpKwargs)
    (hkw : computeWarpKwargs proj region = some kw) :
    ∀ (l1 : List (String × String)) (fp : String × String) (l2 : List (String × String)),
    (∀ fq ∈ l1, we.raises (pathJoin download_dir fq.1) = false ∧
      we.outExists (outpathOf tmp_dir pid fq.1) = true) →
    we.raises (pathJoin download_dir fp.1) = false →
    we.outExists (outpathOf tmp_dir pid fp.1) = true →
    warpLoop we proj region tmp_dir download_dir pid (l1 ++ fp :: l2) =
      ⟨warpTraceOf kw tmp_dir download_dir pid l1 ++
        Event.warp (pathJoin download_dir fp.1) (outpathOf tmp_dir pid fp.1) kw ::
        Event.importRaster (outpathOf tmp_dir pid fp.1) fp.2 ::
        (warpLoop we proj region tmp_dir download_dir pid l2).trace,
       (warpLoop we proj region tmp_dir download_dir pid l2).fatal⟩ := by
  intro l1
  induction l1 with
  | nil =>
    intro fp l2 _ hr ho
    obtain ⟨f, o⟩ := fp
    simp [warpLoop, hkw, hr, ho, warpTraceOf]
  | cons q l1 ih =>
    intro fp l2 hsucc hr ho
    obtain ⟨qf, qo⟩ := q
    obtain ⟨hqr, hqo⟩ := hsucc (qf, qo) (List.mem_cons_self _ _)
    have hrest := ih fp l2 (fun fq hq => hsucc fq (List.mem_cons_of_mem _ hq)) hr ho
    simp [warpLoop, hkw, hqr, hqo, hrest, warpTraceOf]

theorem warpLoop_fail (we : WarpEnv) (proj : Dict) (region : Region)
    (tmp_dir download_dir pid : String) (kw : WarpKwargs)
    (hkw : computeWarpKwargs proj region = some kw) :
    ∀ (l1 : List (String × String)) (fp : String × String) (l2 : List (String × String)),
    (∀ fq ∈ l1, we.raises (pathJoin download_dir fq.1) = false ∧
      we.outExists (outpathOf tmp_dir pid fq.1) = true) →
    (we.raises (pathJoin download_dir fp.1) = true ∨
      we.outExists (outpathOf tmp_dir pid fp.1) = false) →
    warpLoop we proj region tmp_dir download_dir pid (l1 ++ fp :: l2) =
      ⟨warpTraceOf kw tmp_dir download_dir pid l1 ++
        [Event.warp (pathJoin download_dir fp.1) (outpathOf tmp_dir pid fp.1) kw],
       some ("Reprojection of Scene " ++ pathJoin download_dir fp.1 ++ " failed.")⟩ := by
  intro l1
  induction l1 with
  | nil =>
    intro fp l2 _ hfail
    obtain ⟨f, o⟩ := fp
    rcases hfail with hr | ho
    · simp [warpLoop, hkw, hr, warpTraceOf]
    · by_cases hr : we.raises (pathJoin download_dir f) = true
      · simp [warpLoop, hkw, hr, warpTraceOf]
      · simp [warpLoop, hkw, hr, ho, warpTraceOf]
  | cons q l1 ih =>
    intro fp l2 hsucc hfail
    obtain ⟨qf, qo⟩ := q
    obtain ⟨hqr, hqo⟩ := hsucc (qf, qo) (List.mem_cons_self _ _)
    have hrest := ih fp l2 (fun fq hq => hsucc fq (List.mem_cons_of_mem _ hq)) hfail
    simp [warpLoop, hkw, hqr, hqo, hrest, warpTraceOf]

theorem warpLoop_import_outExists (we : WarpEnv) (proj : Dict) (region : Region)
    (tmp_dir download_dir pid : String) :
    ∀ l : List (String × String),
    ((warpLoop we proj region tmp_dir download_dir pid l).trace.all
      (fun e => match e with
        | Event.importRaster i _ => we.outExists i
        | _ => true)) = true := by
  intro l
  induction l with
  | nil => rfl
  | cons fp rest ih =>
    obtain ⟨f, o⟩ := fp
    cases hkw : computeWarpKwargs proj region with
    | none => simp [warpLoop, hkw]
    | some kw =>
      by_cases hr : we.raises (pathJoin download_dir f) = true
      · simp [warpLoop, hkw, hr]
      · by_cases ho : we.outExists (outpathOf tmp_dir pid f) = true
        · simp only [warpLoop, hkw, hr, ho]
          simp [List.all_cons, ho, ih]
        · simp [warpLoop, hkw, hr, ho]

theorem warpLoop_kwargs (we : WarpEnv) (proj : Dict) (region : Region)
    (tmp_dir download_dir pid : String) (kw : WarpKwargs)
    (hkw : computeWarpKwargs proj region = some kw) :
    ∀ l : List (String × String),
    ((warpLoop we proj region tmp_dir download_dir pid l).trace.all
      (fun e => match e with
        | Event.warp _ _ k => k == kw
        | _ => true)) = true := by
  intro l
  induction l with
  | nil => rfl
  | cons fp rest ih =>
    obtain ⟨f, o⟩ := fp
    by_cases hr : we.raises (pathJoin download_dir f) = true
    · simp [warpLoop, hkw, hr]
    · by_cases ho : we.outExists (outpathOf tmp_dir pid f) = true
      · simp only [warpLoop, hkw, hr, ho]
        simp [List.all_cons, ih]
      · simp [warpLoop, hkw, hr, ho]

theorem allBefore_of_no_p (p q : Event → Bool) :
    ∀ l : List Event, (∀ e ∈ l, p e = false) → allBefore p q l = true := by
  intro l
  induction l with
  | nil => intro _; rfl
  | cons e rest ih =>
    intro h
    have h1 : rest.all (fun x => ! p x) = true := by
      rw [List.all_eq_true]
      intro x hx
      simp [h x (List.mem_cons_of_mem _ hx)]
    simp [allBefore, h1, ih (fun x hx => h x (List.mem_cons_of_mem _ hx))]

theorem allBefore_append_mixed (p q : Event → Bool) :
    ∀ l1 l2 : List Event, (∀ e ∈ l1, q e = false) → (∀ e ∈ l2, p e = false) →
    allBefore p q (l1 ++ l2) = true := by
  intro l1
  induction l1 with
  | nil =>
    intro l2 _ h2
    simpa using allBefore_of_no_p p q l2 h2
  | cons e l1 ih =>
    intro l2 h1 h2
    have he := h1 e (List.mem_cons_self _ _)
    simp [allBefore, he, ih l2 (fun x hx => h1 x (List.mem_cons_of_mem _ hx)) h2]

theorem wII_skip : ∀ l1 l2 : List Event, (∀ e ∈ l1, isWarpE e = false) →
    warpsImmediatelyImported (l1 ++ l2) = warpsImmediatelyImported l2 := by
  intro l1
  induction l1 with
  | nil => intro l2 _; rfl
  | cons e l1 ih =>
    intro l2 h
    have he := h e (List.mem_cons_self _ _)
    have hrest := ih l2 (fun x hx => h x (List.mem_cons_of_mem _ hx))
    cases e
    case warp i o k => simp [isWarpE] at he
    all_goals simpa [warpsImmediatelyImported] using hrest

theorem wII_warpTrace (kw : WarpKwargs) (tmp_dir download_dir pid : String) :
    ∀ (l : List (String × String)) (tail : List Event),
    warpsImmediatelyImported tail = true →
    warpsImmediatelyImported (warpTraceOf kw tmp_dir download_dir pid l ++ tail) = true := by
  intro l
  induction l with
  | nil => intro tail h; simpa using h
  | cons fp rest ih =>
    intro tail h
    obtain ⟨f, o⟩ := fp
    simp only [warpTraceOf, List.cons_append, warpsImmediatelyImported]
    simp [ih tail h]

theorem adjacentIn_cons_tail (e1 e2 a : Event) :
    ∀ l : List Event, adjacentIn e1 e2 l = true → adjacentIn e1 e2 (a :: l) = true := by
  intro l h
  cases l with
  | nil => simp [adjacentIn] at h
  | cons b rest => simp [adjacentIn, h]

theorem adjacentIn_append (e1 e2 : Event) :
    ∀ xs ys : List Event, adjacentIn e1 e2 ys = true →
    adjacentIn e1 e2 (xs ++ ys) = true := by
  intro xs
  induction xs with
  | nil => intro ys h; simpa using h
  | cons a xs ih =>
    intro ys h
    exact adjacentIn_cons_tail e1 e2 a (xs ++ ys) (ih ys h)

theorem adjacentIn_here (e1 e2 : Event) (ys : List Event) :
    adjacentIn e1 e2 (e1 :: e2 :: ys) = true := by
  simp [adjacentIn]

theorem warpTraceOf_classes (kw : WarpKwargs) (tmp_dir download_dir pid : String) :
    ∀ l : List (String × String), ∀ e ∈ warpTraceOf kw tmp_dir download_dir pid l,
    (isWarpE e || isImportE e) = true := by
  intro l
  induction l with
  | nil => intro e he; simp [warpTraceOf] at he
  | cons fp rest ih =>
    intro e he
    obtain ⟨f, o⟩ := fp
    simp only [warpTraceOf, List.mem_cons] at he
    rcases he with rfl | rfl | he
    · rfl
    · rfl
    · exact ih e he

theorem download_map_classes (l : Dict) :
    ∀ e ∈ l.map (fun fp => Event.download fp.1 fp.2), isDownloadE e = true := by
  intro e he
  obtain ⟨fp, _, rfl⟩ := List.mem_map.mp he
  rfl

/-- The normal-run reduction of `mainRun`: with the record resolved, the
setup, the downloads and every warp successful, the run produces the linear
pipeline trace and no fatal error. -/
theorem mainRun_ok (opts : Options) (fs : FS) (pickled : Dict)
    (url_lines md5_lines : List String) (dlExists : String → Bool)
    (we : WarpEnv) (proj : Dict) (region : Region)
    (tmp_dir tmp_download_dir pid : String)
    (record : String) (res : SetupResult) (pr : Dict × List Event)
    (wtrace : List Event)
    (hrec : lookupD records opts.year = some record)
    (hsetup : downloadSetup opts fs pickled tmp_download_dir
      (get_filenames opts (keysD (urlsDict url_lines))) (md5Dict md5_lines) =
      Except.ok res)
    (hdl : downloadLoop (urlsDict url_lines) (md5Dict md5_lines) dlExists
      res.old_md5sums res.files_to_download = Except.ok pr)
    (hwl : warpLoop we proj region tmp_dir res.download_dir pid
      (get_filenames opts (keysD (urlsDict url_lines))) = ⟨wtrace, none⟩) :
    mainRun opts fs pickled url_lines md5_lines dlExists we proj region
      tmp_dir tmp_download_dir pid =
      ⟨[Event.resolveDataset record, Event.fetchRemote, Event.decideFiles] ++
        pr.2 ++ wtrace ++
        (if opts.discrete_classification_output ≠ "" then
          [Event.annotateCategories opts.discrete_classification_output categoryText]
        else []), none⟩ := by
  simp [mainRun, hrec, hsetup, hdl, hwl]

theorem downloadLoop_events (urls md5sums : Dict) (dlExists : String → Bool) :
    ∀ (l : Dict) (old : Dict) (pr : Dict × List Event),
    downloadLoop urls md5sums dlExists old l = Except.ok pr →
    pr.2 = l.map (fun fp => Event.download fp.1 fp.2) := by
  intro l
  induction l with
  | nil =>
    intro old pr h
    simp only [downloadLoop] at h
    cases h
    rfl
  | cons fp rest ih =>
    intro old pr h
    cases hu : lookupD urls fp.1 with
    | none => simp [downloadLoop, hu] at h
    | some u =>
      by_cases hdl : dlExists fp.2 = true
      · cases hm : lookupD md5sums fp.1 with
        | none => simp [downloadLoop, hu, hdl, hm] at h
        | some m =>
          cases hrec : downloadLoop urls md5sums dlExists (insertD old fp.1 m) rest with
          | error e => simp [downloadLoop, hu, hdl, hm, hrec] at h
          | ok pr2 =>
            simp only [downloadLoop, hu, hdl, if_true, hm, hrec, Except.ok.injEq] at h
            cases h
            simp [ih _ _ hrec]
      · cases hrec : downloadLoop urls md5sums dlExists old rest with
        | error e => simp [downloadLoop, hu, hdl, hrec] at h
        | ok pr2 =>
          simp only [downloadLoop, hu, hdl, if_false, Bool.false_eq_true, hrec,
            Except.ok.injEq] at h
          cases h
          simp [ih _ _ hrec]

/-- C9: every year value the option parser accepts (the range 2015-2019)
has a Zenodo record identifier in the `records` dict, so the lookup
`records[options["year"]]` in `main` cannot fail, and each of the five
years maps to its fixed record id. -/
theorem C9_records_cover_year_options :
    (yearOptionValues.all (fun y => (lookupD records y).isSome)) = true ∧
    lookupD records "2015" = some "3939038" ∧
    lookupD records "2016" = some "3518026" ∧
    lookupD records "2017" = some "3518036" ∧
    lookupD records "2018" = some "3518038" ∧
    lookupD records "2019" = some "3939050" ∧
    yearOptionValues = ["2015", "2016", "2017", "2018", "2019"] := by
  decide

/-- C8: `cleanup` evaluated at concrete inputs. With both variables unset at
program start and both set at cleanup time (the state after any run that
warped at least one file), cleanup deletes COMPRESS_OVERVIEW but leaves
GDAL_CACHEMAX in the environment, because its two `elif` guards each test
the presence of the other variable; restoring the start state would require
removing GDAL_CACHEMAX as well. With only GDAL_CACHEMAX set at cleanup
time, cleanup raises KeyError while deleting the absent COMPRESS_OVERVIEW. -/
theorem C8_cleanup_divergence :
    cleanupEnv none none [("GDAL_CACHEMAX", "819.2"), ("COMPRESS_OVERVIEW", "LZW")] =
      Except.ok [("GDAL_CACHEMAX", "819.2")] ∧
    cleanupEnv none none [("GDAL_CACHEMAX", "819.2")] =
      Except.error "KeyError: COMPRESS_OVERVIEW" :=
  ⟨rfl, rfl⟩

theorem warpTrace_shape (kw : WarpKwargs) (tmp_dir download_dir pid : String)
    (l : List (String × String)) (P : Event → Bool)
    (hw : ∀ i o k, P (Event.warp i o k) = false)
    (hi : ∀ i o, P (Event.importRaster i o) = false) :
    ∀ e ∈ warpTraceOf kw tmp_dir download_dir pid l, P e = false := by
  intro e he
  have h2 := warpTraceOf_classes kw tmp_dir download_dir pid l e he
  rcases e with r | _ | _ | ⟨f, p⟩ | ⟨i, o, k⟩ | ⟨i, o⟩ | ⟨m, r⟩
  · simp [isWarpE, isImportE] at h2
  · simp [isWarpE, isImportE] at h2
  · simp [isWarpE, isImportE] at h2
  · simp [isWarpE, isImportE] at h2
  · exact hw i o k
  · exact hi i o
  · simp [isWarpE, isImportE] at h2

theorem download_map_shape (l : Dict) (P : Event → Bool)
    (hd : ∀ f p, P (Event.download f p) = false) :
    ∀ e ∈ l.map (fun fp => Event.download fp.1 fp.2), P e = false := by
  intro e he
  obtain ⟨fp, _, rfl⟩ := List.mem_map.mp he
  exact hd fp.1 fp.2

theorem annotateOnly_of_not (m r : String) (e : Event) (he : isAnnotateE e = false) :
    annotateOnly m r e = true := by
  cases e <;> first
    | rfl
    | simp [isAnnotateE] at he

set_option maxRecDepth 4000 in
/-- C7: on a successful run the category-annotation step runs exactly when
the discrete_classification_output option is set, it targets that output
map and feeds it the pipe-separated rules text, and that text consists of
exactly the 23 PROBA-V code-label pairs, one line per pair, in dictionary
order. -/
theorem C7_category_annotation
    (opts : Options) (fs : FS) (pickled : Dict)
    (url_lines md5_lines : List String) (dlExists : String → Bool)
    (we : WarpEnv) (proj : Dict) (region : Region)
    (tmp_dir tmp_download_dir pid : String)
    (record : String) (res : SetupResult) (pr : Dict × List Event) (kw : WarpKwargs)
    (hrec : lookupD records opts.year = some record)
    (hsetup : downloadSetup opts fs pickled tmp_download_dir
      (get_filenames opts (keysD (urlsDict url_lines))) (md5Dict md5_lines) =
      Except.ok res)
    (hdl : downloadLoop (urlsDict url_lines) (md5Dict md5_lines) dlExists
      res.old_md5sums res.files_to_download = Except.ok pr)
    (hkw : computeWarpKwargs proj region = some kw)
    (hsucc : ∀ fp ∈ get_filenames opts (keysD (urlsDict url_lines)),
      we.raises (pathJoin res.download_dir fp.1) = false ∧
      we.outExists (outpathOf tmp_dir pid fp.1) = true) :
    (((mainRun opts fs pickled url_lines md5_lines dlExists we proj region
        tmp_dir tmp_download_dir pid).trace.any isAnnotateE = true) ↔
      opts.discrete_classification_output ≠ "") ∧
    (mainRun opts fs pickled url_lines md5_lines dlExists we proj region
        tmp_dir tmp_download_dir pid).trace.all
      (annotateOnly opts.discrete_classification_output categoryText) = true ∧
    categoryText =
      "0|No inputdata available\n" ++
      "111|Closed forest, evergreen needle leaf\n" ++
      "113|Closed forest, deciduous needle leaf\n" ++
      "112|Closed forest, evergreen, broad leaf\n" ++
      "114|Closed forest, deciduous broad leaf\n" ++
      "115|Closed forest, mixed\n" ++
      "116|Closed forest, unknown\n" ++
      "121|Open forest, evergreen needle leaf\n" ++
      "123|Open forest, deciduous needle leaf\n" ++
      "122|Open forest, evergreen broad leaf\n" ++
      "124|Open forest, deciduous broad leaf\n" ++
      "125|Open forest, mixed\n" ++
      "126|Open forest, unknown\n" ++
      "20|Shrubs\n" ++
      "30|Herbaceous vegetation\n" ++
      "90|Herbaceous wetland\n" ++
      "100|Moss and lichen\n" ++
      "60|Bare / sparse vegetation\n" ++
      "40|Cultivated and managed vegetation/agriculture (cropland)\n" ++
      "50|Urban/ built up\n" ++
      "70|Snow and Ice\n" ++
      "80|Permanent water bodies\n" ++
      "200|Open sea\n" ∧
    discrete_classification_coding.map Prod.fst =
      ["0", "111", "113", "112", "114", "115", "116", "121", "123", "122",
       "124", "125", "126", "20", "30", "90", "100", "60", "40", "50", "70",
       "80", "200"] ∧
    discrete_classification_coding.length = 23 := by
  have hwl := warpLoop_ok we proj region tmp_dir res.download_dir pid kw hkw _ hsucc
  have hmain := mainRun_ok opts fs pickled url_lines md5_lines dlExists we proj region
    tmp_dir tmp_download_dir pid record res pr _ hrec hsetup hdl hwl
  have hpr2 := downloadLoop_events (urlsDict url_lines) (md5Dict md5_lines) dlExists
    res.files_to_download res.old_md5sums pr hdl
  have hwtann : (warpTraceOf kw tmp_dir res.download_dir pid
      (get_filenames opts (keysD (urlsDict url_lines)))).any isAnnotateE = false := by
    rw [List.any_eq_false]
    intro e he
    rw [warpTrace_shape kw tmp_dir res.download_dir pid _ isAnnotateE
      (fun _ _ _ => rfl) (fun _ _ => rfl) e he]
    simp
  have hdlann : pr.2.any isAnnotateE = false := by
    rw [hpr2, List.any_eq_false]
    intro e he
    rw [download_map_shape _ isAnnotateE (fun _ _ => rfl) e he]
    simp
  have hallA : ∀ e ∈ pr.2, annotateOnly opts.discrete_classification_output categoryText e = true := by
    intro e he
    apply annotateOnly_of_not
    rw [hpr2] at he
    exact download_map_shape _ isAnnotateE (fun _ _ => rfl) e he
  have hallW : ∀ e ∈ warpTraceOf kw tmp_dir res.download_dir pid
      (get_filenames opts (keysD (urlsDict url_lines))),
      annotateOnly opts.discrete_classification_output categoryText e = true := by
    intro e he
    exact annotateOnly_of_not _ _ e (warpTrace_shape kw tmp_dir res.download_dir pid _
      isAnnotateE (fun _ _ _ => rfl) (fun _ _ => rfl) e he)
  have ha1 : isAnnotateE (Event.resolveDataset record) = false := rfl
  have ha2 : isAnnotateE Event.fetchRemote = false := rfl
  have ha3 : isAnnotateE Event.decideFiles = false := rfl
  have ha4 : ∀ m r, isAnnotateE (Event.annotateCategories m r) = true := fun _ _ => rfl
  refine ⟨?_, ?_, rfl, by decide, by decide⟩
  · rw [hmain]
    by_cases hset : opts.discrete_classification_output = ""
    · simp [hset, List.any_append, ha1, ha2, ha3, hdlann, hwtann]
    · simp [hset, List.any_append, ha1, ha2, ha3, ha4, hdlann, hwtann]
  · rw [hmain]
    apply List.all_eq_true.mpr
    intro e he
    rcases List.mem_append.mp he with h | h
    · rcases List.mem_append.mp h with h | h
      · rcases List.mem_append.mp h with h | h
        · rcases List.mem_cons.mp h with rfl | h
          · rfl
          rcases List.mem_cons.mp h with rfl | h
          · rfl
          rcases List.mem_cons.mp h with rfl | h
          · rfl
          exact absurd h (List.not_mem_nil e)
        · exact hallA e h
      · exact hallW e h
    by_cases hset : opts.discrete_classification_output = ""
    · simp [hset] at h
    · simp only [hset, ne_eq, not_false_eq_true, if_true, List.mem_singleton] at h
      subst h
      simp [annotateOnly]

/-- C2: on a successful run, `main` produces one linear, sequential trace:
it starts by resolving the dataset record, the fetch precedes the decision,
the decision precedes every download, every download completes before any
warp starts, each warp is immediately followed by the import of its warped
file, category annotation comes only after all imports, and the run ends
without a fatal error. Concurrency cannot arise: the trace is a single
list of events in program order. -/
theorem C2_linear_pipeline
    (opts : Options) (fs : FS) (pickled : Dict)
    (url_lines md5_lines : List String) (dlExists : String → Bool)
    (we : WarpEnv) (proj : Dict) (region : Region)
    (tmp_dir tmp_download_dir pid : String)
    (record : String) (res : SetupResult) (pr : Dict × List Event) (kw : WarpKwargs)
    (hrec : lookupD records opts.year = some record)
    (hsetup : downloadSetup opts fs pickled tmp_download_dir
      (get_filenames opts (keysD (urlsDict url_lines))) (md5Dict md5_lines) =
      Except.ok res)
    (hdl : downloadLoop (urlsDict url_lines) (md5Dict md5_lines) dlExists
      res.old_md5sums res.files_to_download = Except.ok pr)
    (hkw : computeWarpKwargs proj region = some kw)
    (hsucc : ∀ fp ∈ get_filenames opts (keysD (urlsDict url_lines)),
      we.raises (pathJoin res.download_dir fp.1) = false ∧
      we.outExists (outpathOf tmp_dir pid fp.1) = true) :
    (mainRun opts fs pickled url_lines md5_lines dlExists we proj region
      tmp_dir tmp_download_dir pid).trace.head? =
        some (Event.resolveDataset record) ∧
    allBefore isResolveE isFetchE (mainRun opts fs pickled url_lines md5_lines
      dlExists we proj region tmp_dir tmp_download_dir pid).trace = true ∧
    allBefore isFetchE isDecideE (mainRun opts fs pickled url_lines md5_lines
      dlExists we proj region tmp_dir tmp_download_dir pid).trace = true ∧
    allBefore isDecideE isDownloadE (mainRun opts fs pickled url_lines md5_lines
      dlExists we proj region tmp_dir tmp_download_dir pid).trace = true ∧
    allBefore isDownloadE isWarpE (mainRun opts fs pickled url_lines md5_lines
      dlExists we proj region tmp_dir tmp_download_dir pid).trace = true ∧
    allBefore isImportE isAnnotateE (mainRun opts fs pickled url_lines md5_lines
      dlExists we proj region tmp_dir tmp_download_dir pid).trace = true ∧
    warpsImmediatelyImported (mainRun opts fs pickled url_lines md5_lines
      dlExists we proj region tmp_dir tmp_download_dir pid).trace = true ∧
    (mainRun opts fs pickled url_lines md5_lines dlExists we proj region
      tmp_dir tmp_download_dir pid).fatal = none := by
  have hwl := warpLoop_ok we proj region tmp_dir res.download_dir pid kw hkw _ hsucc
  have hmain := mainRun_ok opts fs pickled url_lines md5_lines dlExists we proj region
    tmp_dir tmp_download_dir pid record res pr _ hrec hsetup hdl hwl
  have hpr2 := downloadLoop_events (urlsDict url_lines) (md5Dict md5_lines) dlExists
    res.files_to_download res.old_md5sums pr hdl
  have hdlseg : ∀ P : Event → Bool, (∀ f p, P (Event.download f p) = false) →
      ∀ e ∈ pr.2, P e = false := by
    intro P hP e he
    rw [hpr2] at he
    exact download_map_shape _ P hP e he
  have hwtseg : ∀ P : Event → Bool, (∀ i o k, P (Event.warp i o k) = false) →
      (∀ i o, P (Event.importRaster i o) = false) →
      ∀ e ∈ warpTraceOf kw tmp_dir res.download_dir pid
        (get_filenames opts (keysD (urlsDict url_lines))), P e = false :=
    fun P hw hi => warpTrace_shape kw tmp_dir res.download_dir pid _ P hw hi
  have hannseg : ∀ P : Event → Bool, (∀ m r, P (Event.annotateCategories m r) = false) →
      ∀ e ∈ (if opts.discrete_classification_output ≠ "" then
        [Event.annotateCategories opts.discrete_classification_output categoryText]
      else []), P e = false := by
    intro P hP e he
    by_cases hset : opts.discrete_classification_output = ""
    · simp [hset] at he
    · simp only [hset, ne_eq, not_false_eq_true, if_true, List.mem_singleton] at he
      subst he
      exact hP _ _
  refine ⟨?_, ?_, ?_, ?_, ?_, ?_, ?_, ?_⟩
  · simp [hmain]
  · simp only [hmain]
    have h1 : ∀ e ∈ [Event.resolveDataset record], isFetchE e = false := by
      intro e he
      rcases List.mem_singleton.mp he with rfl
      rfl
    have h2 : ∀ e ∈ [Event.fetchRemote, Event.decideFiles] ++ (pr.2 ++
        (warpTraceOf kw tmp_dir res.download_dir pid
          (get_filenames opts (keysD (urlsDict url_lines))) ++
        (if opts.discrete_classification_output ≠ "" then
          [Event.annotateCategories opts.discrete_classification_output categoryText]
        else []))), isResolveE e = false := by
      intro e he
      rcases List.mem_append.mp he with h | h
      · rcases List.mem_cons.mp h with rfl | h
        · rfl
        rcases List.mem_cons.mp h with rfl | h
        · rfl
        exact absurd h (List.not_mem_nil e)
      rcases List.mem_append.mp h with h | h
      · exact hdlseg isResolveE (fun _ _ => rfl) e h
      rcases List.mem_append.mp h with h | h
      · exact hwtseg isResolveE (fun _ _ _ => rfl) (fun _ _ => rfl) e h
      · exact hannseg isResolveE (fun _ _ => rfl) e h
    simpa using allBefore_append_mixed isResolveE isFetchE _ _ h1 h2
  · simp only [hmain]
    have h1 : ∀ e ∈ [Event.resolveDataset record, Event.fetchRemote],
        isDecideE e = false := by
      intro e he
      rcases List.mem_cons.mp he with rfl | h
      · rfl
      rcases List.mem_singleton.mp h with rfl
      rfl
    have h2 : ∀ e ∈ [Event.decideFiles] ++ (pr.2 ++
        (warpTraceOf kw tmp_dir res.download_dir pid
          (get_filenames opts (keysD (urlsDict url_lines))) ++
        (if opts.discrete_classification_output ≠ "" then
          [Event.annotateCategories opts.discrete_classification_output categoryText]
        else []))), isFetchE e = false := by
      intro e he
      rcases List.mem_append.mp he with h | h
      · rcases List.mem_singleton.mp h with rfl
        rfl
      rcases List.mem_append.mp h with h | h
      · exact hdlseg isFetchE (fun _ _ => rfl) e h
      rcases List.mem_append.mp h with h | h
      · exact hwtseg isFetchE (fun _ _ _ => rfl) (fun _ _ => rfl) e h
      · exact hannseg isFetchE (fun _ _ => rfl) e h
    simpa using allBefore_append_mixed isFetchE isDecideE _ _ h1 h2
  · simp only [hmain]
    have h1 : ∀ e ∈ [Event.resolveDataset record, Event.fetchRemote,
        Event.decideFiles], isDownloadE e = false := by
      intro e he
      rcases List.mem_cons.mp he with rfl | h
      · rfl
      rcases List.mem_cons.mp h with rfl | h
      · rfl
      rcases List.mem_singleton.mp h with rfl
      rfl
    have h2 : ∀ e ∈ pr.2 ++
        (warpTraceOf kw tmp_dir res.download_dir pid
          (get_filenames opts (keysD (urlsDict url_lines))) ++
        (if opts.discrete_classification_output ≠ "" then
          [Event.annotateCategories opts.discrete_classification_output categoryText]
        else [])), isDecideE e = false := by
      intro e he
      rcases List.mem_append.mp he with h | h
      · exact hdlseg isDecideE (fun _ _ => rfl) e h
      rcases List.mem_append.mp h with h | h
      · exact hwtseg isDecideE (fun _ _ _ => rfl) (fun _ _ => rfl) e h
      · exact hannseg isDecideE (fun _ _ => rfl) e h
    simpa using allBefore_append_mixed isDecideE isDownloadE _ _ h1 h2
  · simp only [hmain]
    have h1 : ∀ e ∈ [Event.resolveDataset record, Event.fetchRemote,
        Event.decideFiles] ++ pr.2, isWarpE e = false := by
      intro e he
      rcases List.mem_append.mp he with h | h
      · rcases List.mem_cons.mp h with rfl | h
        · rfl
        rcases List.mem_cons.mp h with rfl | h
        · rfl
        rcases List.mem_singleton.mp h with rfl
        rfl
      · exact hdlseg isWarpE (fun _ _ => rfl) e h
    have h2 : ∀ e ∈ warpTraceOf kw tmp_dir res.download_dir pid
        (get_filenames opts (keysD (urlsDict url_lines))) ++
        (if opts.discrete_classification_output ≠ "" then
          [Event.annotateCategories opts.discrete_classification_output categoryText]
        else []), isDownloadE e = false := by
      intro e he
      rcases List.mem_append.mp he with h | h
      · exact hwtseg isDownloadE (fun _ _ _ => rfl) (fun _ _ => rfl) e h
      · exact hannseg isDownloadE (fun _ _ => rfl) e h
    simpa using allBefore_append_mixed isDownloadE isWarpE _ _ h1 h2
  · simp only [hmain]
    have h1 : ∀ e ∈ ([Event.resolveDataset record, Event.fetchRemote,
        Event.decideFiles] ++ pr.2) ++ warpTraceOf kw tmp_dir res.download_dir pid
        (get_filenames opts (keysD (urlsDict url_lines))),
        isAnnotateE e = false := by
      intro e he
      rcases List.mem_append.mp he with h | h
      · rcases List.mem_append.mp h with h | h
        · rcases List.mem_cons.mp h with rfl | h
          · rfl
          rcases List.mem_cons.mp h with rfl | h
          · rfl
          rcases List.mem_singleton.mp h with rfl
          rfl
        · exact hdlseg isAnnotateE (fun _ _ => rfl) e h
      · exact hwtseg isAnnotateE (fun _ _ _ => rfl) (fun _ _ => rfl) e h
    have h2 : ∀ e ∈ (if opts.discrete_classification_output ≠ "" then
        [Event.annotateCategories opts.discrete_classification_output categoryText]
      else []), isImportE e = false :=
      hannseg isImportE (fun _ _ => rfl)
    simpa using allBefore_append_mixed isImportE isAnnotateE _ _ h1 h2
  · simp only [hmain]
    have hanntrue : warpsImmediatelyImported
        (if opts.discrete_classification_output ≠ "" then
          [Event.annotateCategories opts.discrete_classification_output categoryText]
        else []) = true := by
      by_cases hset : opts.discrete_classification_output = ""
      · simp [hset, warpsImmediatelyImported]
      · simp [hset, warpsImmediatelyImported]
    have hsk : ∀ e ∈ [Event.resolveDataset record, Event.fetchRemote,
        Event.decideFiles] ++ pr.2, isWarpE e = false := by
      intro e he
      rcases List.mem_append.mp he with h | h
      · rcases List.mem_cons.mp h with rfl | h
        · rfl
        rcases List.mem_cons.mp h with rfl | h
        · rfl
        rcases List.mem_singleton.mp h with rfl
        rfl
      · exact hdlseg isWarpE (fun _ _ => rfl) e h
    have h1 := wII_warpTrace kw tmp_dir res.download_dir pid
      (get_filenames opts (keysD (urlsDict url_lines)))
      (if opts.discrete_classification_output ≠ "" then
        [Event.annotateCategories opts.discrete_classification_output categoryText]
      else []) hanntrue
    have h2 := wII_skip ([Event.resolveDataset record, Event.fetchRemote,
        Event.decideFiles] ++ pr.2)
      (warpTraceOf kw tmp_dir res.download_dir pid
        (get_filenames opts (keysD (urlsDict url_lines))) ++
       (if opts.discrete_classification_output ≠ "" then
        [Event.annotateCategories opts.discrete_classification_output categoryText]
       else [])) hsk
    simpa using h2.trans h1
  · simp [hmain]

/-- C1: with a directory option and an existing per-year directory, a
requested file is scheduled for download exactly when its local copy is
missing, or no old checksum is recorded for it in md5sums.pkl, or the
recorded checksum differs from the current remote checksum (so a file with
a local copy and an unchanged checksum is skipped); without a directory
option, or when the per-year directory does not exist yet, every requested
file is scheduled. -/
theorem C1_download_decision
    (opts : Options) (fs : FS) (pickled : Dict) (tmp_download_dir : String)
    (filenames md5sums : Dict) (f : String)
    (hmem : f ∈ keysD filenames)
    (hmd5 : ∀ g ∈ keysD filenames, (lookupD md5sums g).isSome = true) :
    (opts.directory ≠ "" →
      fs.isDir (pathJoin opts.directory (yearStr opts)) = true →
      ((lookupD (ftdOf (downloadSetup opts fs pickled tmp_download_dir
          filenames md5sums)) f).isSome = true ↔
        (fs.isFile (pathJoin (pathJoin opts.directory (yearStr opts)) f) = false ∨
         lookupD (if fs.isFile (pathJoin (pathJoin opts.directory (yearStr opts))
            "md5sums.pkl") = true then pickled else []) f = none ∨
         lookupD md5sums f ≠
           lookupD (if fs.isFile (pathJoin (pathJoin opts.directory (yearStr opts))
              "md5sums.pkl") = true then pickled else []) f))) ∧
    (opts.directory ≠ "" →
      fs.isDir (pathJoin opts.directory (yearStr opts)) = false →
      (lookupD (ftdOf (downloadSetup opts fs pickled tmp_download_dir
        filenames md5sums)) f).isSome = true) ∧
    (opts.directory = "" →
      (lookupD (ftdOf (downloadSetup opts fs pickled tmp_download_dir
        filenames md5sums)) f).isSome = true) := by
  refine ⟨?_, ?_, ?_⟩
  · intro hdir hisdir
    obtain ⟨d, hd, hlook, _⟩ := filesLoopAux_spec fs
      (pathJoin opts.directory (yearStr opts))
      (if fs.isFile (pathJoin (pathJoin opts.directory (yearStr opts))
        "md5sums.pkl") = true then pickled else [])
      md5sums (keysD filenames) [] hmd5
    have hset : downloadSetup opts fs pickled tmp_download_dir filenames md5sums =
        Except.ok ⟨pathJoin opts.directory (yearStr opts), d,
          (if fs.isFile (pathJoin (pathJoin opts.directory (yearStr opts))
            "md5sums.pkl") = true then pickled else [])⟩ := by
      simp [downloadSetup, hdir, hisdir, hd]
    rw [hset]
    simp only [ftdOf]
    rw [hlook f]
    simp only [lookupD, Option.isSome_none, Bool.false_eq_true, false_or]
    constructor
    · rintro ⟨_, hw⟩
      simpa [wantFile] using hw
    · intro hw
      exact ⟨hmem, by simpa [wantFile] using hw⟩
  · intro hdir hisdir
    have hset : downloadSetup opts fs pickled tmp_download_dir filenames md5sums =
        Except.ok ⟨pathJoin opts.directory (yearStr opts),
          filenames.map (fun p => (p.1,
            pathJoin (pathJoin opts.directory (yearStr opts)) p.1)), []⟩ := by
      simp [downloadSetup, hdir, hisdir]
    rw [hset]
    simp only [ftdOf]
    rw [lookupD_isSome_iff, keysD_mapPath]
    exact hmem
  · intro hdir
    have hset : downloadSetup opts fs pickled tmp_download_dir filenames md5sums =
        Except.ok ⟨tmp_download_dir,
          filenames.map (fun p => (p.1, pathJoin tmp_download_dir p.1)), []⟩ := by
      simp [downloadSetup, hdir]
    rw [hset]
    simp only [ftdOf]
    rw [lookupD_isSome_iff, keysD_mapPath]
    exact hmem

/-- C3: the reprojection parameters computed for every selected file:
source SRS EPSG:4326, destination SRS the EPSG code of the current working
projection (the epsg key, or else the code parsed from the srid key),
output bounds (min(e,w), min(n,s), max(e,w), max(n,s)) of the current
region expressed in the destination SRS, and a 100 by 100 resolution with
target-aligned pixels exactly when the projection unit is meter,
case-insensitively; every warp event of the reprojection loop carries
exactly these parameters. -/
theorem C3_warp_parameters
    (proj : Dict) (region : Region) (kw : WarpKwargs)
    (we : WarpEnv) (tmp_dir download_dir pid : String)
    (l : List (String × String))
    (hkw : computeWarpKwargs proj region = some kw) :
    kw.srcSRS = "EPSG:4326" ∧
    kw.dstSRS = "EPSG:" ++ (epsgOf proj).getD "" ∧
    (epsgOf proj).isSome = true ∧
    kw.outputBoundsSRS = kw.dstSRS ∧
    kw.outputBounds = (min region.e region.w, min region.n region.s,
      max region.e region.w, max region.n region.s) ∧
    (strToLower ((lookupD proj "unit").getD "") = "meter" ↔
      (kw.xRes = some 100 ∧ kw.yRes = some 100 ∧ kw.targetAlignedPixels = true)) ∧
    ((warpLoop we proj region tmp_dir download_dir pid l).trace.all
      (fun e => match e with
        | Event.warp _ _ k => k == kw
        | _ => true)) = true := by
  have hall := warpLoop_kwargs we proj region tmp_dir download_dir pid kw hkw l
  cases hepsg : epsgOf proj with
  | none => simp [computeWarpKwargs, hepsg] at hkw
  | some epsg =>
    cases hunit : lookupD proj "unit" with
    | none => simp [computeWarpKwargs, hepsg, hunit] at hkw
    | some u =>
      simp only [computeWarpKwargs, hepsg, hunit, Option.some.injEq] at hkw
      subst hkw
      refine ⟨rfl, by simp, rfl, rfl, rfl, ?_, hall⟩
      by_cases hmeter : strToLower u = "meter"
      · simp [hmeter]
      · simp [hmeter]

theorem filesLoopAux_paths (fs : FS) (ddir : String) (old md5sums : Dict)
    (l : List String) : ∀ acc d : Dict,
    filesLoopAux fs ddir old md5sums acc l = Except.ok d →
    ∀ q ∈ d, q ∈ acc ∨ q.2 = pathJoin ddir q.1 := by
  induction l with
  | nil =>
    intro acc d hd q hq
    simp only [filesLoopAux] at hd
    cases hd
    exact Or.inl hq
  | cons f rest ih =>
    intro acc d hd q hq
    have hins : q ∈ insertD acc f (pathJoin ddir f) → q ∈ acc ∨ q.2 = pathJoin ddir q.1 := by
      intro h2
      rcases mem_insertD h2 with h3 | h3
      · exact Or.inl h3
      · subst h3; exact Or.inr rfl
    by_cases hisf : fs.isFile (pathJoin ddir f) = true
    · cases hold : lookupD old f with
      | none =>
        simp only [filesLoopAux, hisf, hold, if_true] at hd
        rcases ih _ _ hd q hq with h1 | h1
        · exact hins h1
        · exact Or.inr h1
      | some oldsum =>
        cases hcur : lookupD md5sums f with
        | none => simp [filesLoopAux, hisf, hold, hcur] at hd
        | some cursum =>
          by_cases hne : cursum = oldsum
          · subst hne
            simp only [filesLoopAux, hisf, hold, hcur, if_true, ne_eq,
              not_true_eq_false, if_false, ite_self] at hd
            rcases ih _ _ hd q hq with h1 | h1
            · exact Or.inl h1
            · exact Or.inr h1
          · simp only [filesLoopAux, hisf, hold, hcur, if_true, ne_eq, hne,
              not_false_eq_true, if_true] at hd
            rcases ih _ _ hd q hq with h1 | h1
            · exact hins h1
            · exact Or.inr h1
    · have hisf2 : fs.isFile (pathJoin ddir f) = false := by
        cases h : fs.isFile (pathJoin ddir f)
        · rfl
        · exact absurd h hisf
      simp only [filesLoopAux, hisf2, Bool.false_eq_true, if_false] at hd
      rcases ih _ _ hd q hq with h1 | h1
      · exact hins h1
      · exact Or.inr h1

/-- C4: with a directory option, scheduled downloads are cached under the
<directory>/<year> directory, md5sums.pkl is (re)written exactly when at
least one file was scheduled, and the persisted map is the old map updated
so that every scheduled file whose download left a file on disk maps to
its current remote checksum, while files that were not scheduled keep
their old entries. -/
theorem C4_md5_persistence
    (opts : Options) (fs : FS) (pickled : Dict) (tmp_download_dir : String)
    (filenames md5sums urls : Dict)
    (dlExists : String → Bool) (old ftd newOld : Dict) (evs : List Event)
    (f p g : String)
    (hdir : opts.directory ≠ "")
    (hnd : (keysD ftd).Nodup)
    (hurls : ∀ x ∈ keysD ftd, (lookupD urls x).isSome = true)
    (hmd5 : ∀ x ∈ keysD ftd, (lookupD md5sums x).isSome = true)
    (hrun : downloadLoop urls md5sums dlExists old ftd = Except.ok (newOld, evs))
    (hfp : (f, p) ∈ ftd)
    (hg : g ∉ keysD ftd) :
    (persistedMd5sums opts ftd newOld =
      if ftd.length > 0 then some newOld else none) ∧
    (ftd = [] → persistedMd5sums opts ftd newOld = none) ∧
    lookupD newOld f =
      (if dlExists p = true then lookupD md5sums f else lookupD old f) ∧
    lookupD newOld g = lookupD old g ∧
    (∀ q ∈ ftdOf (downloadSetup opts fs pickled tmp_download_dir
        filenames md5sums),
      q.2 = pathJoin (pathJoin opts.directory (yearStr opts)) q.1) := by
  obtain ⟨pr, hpr, hevs, hout, hper⟩ :=
    downloadLoop_spec urls md5sums dlExists ftd old hurls hmd5
  have hpr2 : pr = (newOld, evs) := by
    have := hpr.symm.trans hrun
    exact Except.ok.inj this
  subst hpr2
  refine ⟨?_, ?_, ?_, ?_, ?_⟩
  · by_cases hlen : ftd.length > 0
    · simp [persistedMd5sums, hdir, hlen]
    · simp [persistedMd5sums, hdir, hlen]
  · intro h
    subst h
    simp [persistedMd5sums]
  · exact hper hnd (f, p) hfp
  · exact hout g hg
  · intro q hq
    by_cases hisdir : fs.isDir (pathJoin opts.directory (yearStr opts)) = true
    · cases hloop : filesLoopAux fs (pathJoin opts.directory (yearStr opts))
        (if fs.isFile (pathJoin (pathJoin opts.directory (yearStr opts))
          "md5sums.pkl") = true then pickled else [])
        md5sums [] (keysD filenames) with
      | error e =>
        rw [show downloadSetup opts fs pickled tmp_download_dir filenames md5sums =
            Except.error e by simp [downloadSetup, hdir, hisdir, hloop]] at hq
        simp [ftdOf] at hq
      | ok d =>
        rw [show downloadSetup opts fs pickled tmp_download_dir filenames md5sums =
            Except.ok ⟨pathJoin opts.directory (yearStr opts), d,
              (if fs.isFile (pathJoin (pathJoin opts.directory (yearStr opts))
                "md5sums.pkl") = true then pickled else [])⟩ by
          simp [downloadSetup, hdir, hisdir, hloop]] at hq
        simp only [ftdOf] at hq
        rcases filesLoopAux_paths fs _ _ md5sums _ _ _ hloop q hq with h1 | h1
        · exact absurd h1 (List.not_mem_nil q)
        · exact h1
    · rw [show downloadSetup opts fs pickled tmp_download_dir filenames md5sums =
          Except.ok ⟨pathJoin opts.directory (yearStr opts),
            filenames.map (fun p2 => (p2.1,
              pathJoin (pathJoin opts.directory (yearStr opts)) p2.1)), []⟩ by
        simp [downloadSetup, hdir, hisdir]] at hq
      simp only [ftdOf] at hq
      obtain ⟨p2, _, rfl⟩ := List.mem_map.mp hq
      rfl

theorem productFold_lookup (sub v : String) (allf : List String) :
    ∀ (d : Dict) (g : String),
    lookupD (allf.foldl (fun d2 entry =>
      if containsStr (strToLower entry) sub = true then insertD d2 entry v else d2) d) g =
      if g ∈ allf ∧ containsStr (strToLower g) sub = true then some v else lookupD d g := by
  induction allf with
  | nil => intro d g; simp
  | cons a rest ih =>
    intro d g
    simp only [List.foldl_cons]
    rw [ih]
    by_cases hga : g = a
    · subst hga
      by_cases hgc : containsStr (strToLower g) sub = true
      · by_cases hgr : g ∈ rest
        · simp [hgc, hgr, lookupD_insertD]
        · simp [hgc, hgr, lookupD_insertD]
      · simp [hgc]
    · by_cases hac : containsStr (strToLower a) sub = true
      · by_cases hgr : g ∈ rest <;> by_cases hgc : containsStr (strToLower g) sub = true <;>
          simp [hac, hga, hgr, hgc, lookupD_insertD]
      · by_cases hgr : g ∈ rest <;> by_cases hgc : containsStr (strToLower g) sub = true <;>
          simp [hac, hga, hgr, hgc]

theorem productBlock_lookup (allf : List String) (s : String × String)
    (d : Dict) (g : String) :
    lookupD (productBlock allf d s) g =
      if g ∈ allf ∧ s.2 ≠ "" ∧ containsStr (strToLower g) s.1 = true then some s.2
      else lookupD d g := by
  by_cases hs : s.2 = ""
  · simp [productBlock, hs]
  · simp only [productBlock, hs, ne_eq, not_false_eq_true, if_true]
    rw [productFold_lookup]
    by_cases hga : g ∈ allf <;> by_cases hgc : containsStr (strToLower g) s.1 = true <;>
      simp [hga, hgc, hs]

theorem foldl_productBlock_lookup (allf : List String) :
    ∀ (specs : List (String × String)) (d : Dict) (g : String),
    lookupD (specs.foldl (productBlock allf) d) g =
      (match lastMatchValue allf g specs with
       | some v => some v
       | none => lookupD d g) := by
  intro specs
  induction specs with
  | nil => intro d g; rfl
  | cons s rest ih =>
    intro d g
    simp only [List.foldl_cons, lastMatchValue]
    rw [ih (productBlock allf d s) g]
    cases hrest : lastMatchValue allf g rest with
    | some v => simp
    | none =>
      simp only []
      rw [productBlock_lookup]
      by_cases hc : g ∈ allf ∧ s.2 ≠ "" ∧ containsStr (strToLower g) s.1 = true
      · simp [hc]
      · simp [hc]

theorem lastMatchValue_isSome (allf : List String) (g : String) :
    ∀ specs : List (String × String),
    (lastMatchValue allf g specs).isSome = true ↔
      ∃ s ∈ specs, g ∈ allf ∧ s.2 ≠ "" ∧ containsStr (strToLower g) s.1 = true := by
  intro specs
  induction specs with
  | nil => simp [lastMatchValue]
  | cons s rest ih =>
    simp only [lastMatchValue]
    cases hrest : lastMatchValue allf g rest with
    | some v =>
      simp only [Option.isSome_some, true_iff]
      obtain ⟨s2, hs2, h2⟩ := ih.mp (by rw [hrest]; rfl)
      exact ⟨s2, List.mem_cons_of_mem _ hs2, h2⟩
    | none =>
      simp only []
      by_cases hc : g ∈ allf ∧ s.2 ≠ "" ∧ containsStr (strToLower g) s.1 = true
      · rw [if_pos hc]
        constructor
        · intro _
          exact ⟨s, List.mem_cons_self _ _, hc⟩
        · intro _
          rfl
      · rw [if_neg hc]
        constructor
        · intro h2
          simp at h2
        · rintro ⟨s2, hs2, h2⟩
          rcases List.mem_cons.mp hs2 with rfl | hs2
          · exact absurd h2 hc
          · rw [← hrest]
            exact ih.mpr ⟨s2, hs2, h2⟩

theorem lastMatchValue_eq_some (allf : List String) (g : String) :
    ∀ (specs : List (String × String)) (v : String),
    lastMatchValue allf g specs = some v →
    ∃ s ∈ specs, s.2 = v ∧ s.2 ≠ "" ∧ g ∈ allf ∧ containsStr (strToLower g) s.1 = true := by
  intro specs
  induction specs with
  | nil => intro v h; simp [lastMatchValue] at h
  | cons s rest ih =>
    intro v h
    simp only [lastMatchValue] at h
    cases hrest : lastMatchValue allf g rest with
    | some w =>
      rw [hrest] at h
      cases h
      obtain ⟨s2, hs2, h2⟩ := ih v hrest
      exact ⟨s2, List.mem_cons_of_mem _ hs2, h2⟩
    | none =>
      rw [hrest] at h
      by_cases hc : g ∈ allf ∧ s.2 ≠ "" ∧ containsStr (strToLower g) s.1 = true
      · rw [if_pos hc] at h
        cases h
        exact ⟨s, List.mem_cons_self _ _, rfl, hc.2.1, hc.1, hc.2.2⟩
      · rw [if_neg hc] at h
        cases h

theorem keysD_insertD_mem {d : Dict} {k v g : String}
    (h : g ∈ keysD (insertD d k v)) : g ∈ keysD d ∨ g = k := by
  rw [← lookupD_isSome_iff] at h
  rw [lookupD_insertD] at h
  by_cases hgk : g = k
  · exact Or.inr hgk
  · rw [if_neg hgk] at h
    exact Or.inl (lookupD_isSome_iff.mp h)

theorem urlsFold_keys : ∀ (ls : List String) (d : Dict) (g : String),
    g ∈ keysD (ls.foldl (fun d2 x => insertD d2 (basenameOf x) x) d) →
    g ∈ keysD d ∨ ∃ x ∈ ls, basenameOf x = g := by
  intro ls
  induction ls with
  | nil => intro d g h; exact Or.inl h
  | cons a rest ih =>
    intro d g h
    simp only [List.foldl_cons] at h
    rcases ih _ g h with h1 | h1
    · rcases keysD_insertD_mem h1 with h2 | h2
      · exact Or.inl h2
      · exact Or.inr ⟨a, List.mem_cons_self _ _, h2.symm⟩
    · obtain ⟨x, hx, hb⟩ := h1
      exact Or.inr ⟨x, List.mem_cons_of_mem _ hx, hb⟩

theorem urlsDict_keys (url_lines : List String) (g : String)
    (h : g ∈ keysD (urlsDict url_lines)) :
    url_lines.any (fun x => decide (x ≠ "") && strEndsWith x ".tif" &&
      decide (basenameOf x = g)) = true := by
  rcases urlsFold_keys _ [] g h with h1 | h1
  · simp [keysD] at h1
  · obtain ⟨x, hx, hb⟩ := h1
    rw [List.mem_filter] at hx
    rw [List.any_eq_true]
    refine ⟨x, hx.1, ?_⟩
    rw [Bool.and_eq_true, Bool.and_eq_true]
    have := hx.2
    rw [Bool.and_eq_true] at this
    exact ⟨⟨this.1, this.2⟩, by simp [hb]⟩

/-- C5: the selected-filename mapping contains exactly the remote .tif
basenames whose lower-cased name contains the product substring of some
set output option; a selected name is mapped to the value of a matching
set option; every key of the url dict stems from a nonempty url line
ending in .tif; and only selected filenames are ever scheduled for
download. -/
theorem C5_filename_selection
    (opts : Options) (url_lines : List String) (entry : String)
    (fs : FS) (pickled : Dict) (tmp_download_dir : String) (md5sums : Dict) :
    ((lookupD (get_filenames opts (keysD (urlsDict url_lines))) entry).isSome = true ↔
      (entry ∈ keysD (urlsDict url_lines) ∧
       (productSpecs opts).any (fun s => decide (s.2 ≠ "") &&
         containsStr (strToLower entry) s.1) = true)) ∧
    ((match lookupD (get_filenames opts (keysD (urlsDict url_lines))) entry with
      | some w => (productSpecs opts).any (fun s => decide (s.2 = w) &&
          decide (s.2 ≠ "") && containsStr (strToLower entry) s.1)
      | none => true) = true) ∧
    (entry ∈ keysD (urlsDict url_lines) →
      url_lines.any (fun x => decide (x ≠ "") && strEndsWith x ".tif" &&
        decide (basenameOf x = entry)) = true) ∧
    ((lookupD (ftdOf (downloadSetup opts fs pickled tmp_download_dir
        (get_filenames opts (keysD (urlsDict url_lines))) md5sums)) entry).isSome = true →
      (lookupD (get_filenames opts (keysD (urlsDict url_lines))) entry).isSome = true) := by
  have hlook : lookupD (get_filenames opts (keysD (urlsDict url_lines))) entry =
      lastMatchValue (keysD (urlsDict url_lines)) entry (productSpecs opts) := by
    simp only [get_filenames]
    rw [foldl_productBlock_lookup]
    cases h : lastMatchValue (keysD (urlsDict url_lines)) entry (productSpecs opts) with
    | some v => simp
    | none => simp [lookupD]
  refine ⟨?_, ?_, ?_, ?_⟩
  · rw [hlook, lastMatchValue_isSome]
    constructor
    · rintro ⟨s, hs, hmem, hne, hcont⟩
      exact ⟨hmem, List.any_eq_true.mpr ⟨s, hs, by simp [hne, hcont]⟩⟩
    · rintro ⟨hmem, hany⟩
      obtain ⟨s, hs, hp⟩ := List.any_eq_true.mp hany
      rw [Bool.and_eq_true, decide_eq_true_eq] at hp
      exact ⟨s, hs, hmem, hp.1, hp.2⟩
  · cases hv : lookupD (get_filenames opts (keysD (urlsDict url_lines))) entry with
    | none => rfl
    | some w =>
      obtain ⟨s, hs, hv2, hne, hmem, hcont⟩ :=
        lastMatchValue_eq_some (keysD (urlsDict url_lines)) entry (productSpecs opts) w
          (by rw [← hlook]; exact hv)
      simp only []
      have hwne : w ≠ "" := hv2 ▸ hne
      exact List.any_eq_true.mpr ⟨s, hs, by simp [hv2, hne, hcont, hwne]⟩
  · intro h
    exact urlsDict_keys url_lines entry h
  · intro hftd
    by_cases hdir : opts.directory = ""
    · rw [show downloadSetup opts fs pickled tmp_download_dir
          (get_filenames opts (keysD (urlsDict url_lines))) md5sums =
          Except.ok ⟨tmp_download_dir,
            (get_filenames opts (keysD (urlsDict url_lines))).map
              (fun p => (p.1, pathJoin tmp_download_dir p.1)), []⟩ from by
        simp [downloadSetup, hdir]] at hftd
      simp only [ftdOf] at hftd
      rw [lookupD_isSome_iff, keysD_mapPath] at hftd
      exact lookupD_isSome_iff.mpr hftd
    · by_cases hisdir : fs.isDir (pathJoin opts.directory (yearStr opts)) = true
      · cases hloop : filesLoopAux fs (pathJoin opts.directory (yearStr opts))
          (if fs.isFile (pathJoin (pathJoin opts.directory (yearStr opts))
            "md5sums.pkl") = true then pickled else [])
          md5sums [] (keysD (get_filenames opts (keysD (urlsDict url_lines)))) with
        | error e =>
          rw [show downloadSetup opts fs pickled tmp_download_dir
              (get_filenames opts (keysD (urlsDict url_lines))) md5sums =
              Except.error e from by simp [downloadSetup, hdir, hisdir, hloop]] at hftd
          simp [ftdOf, lookupD] at hftd
        | ok d =>
          rw [show downloadSetup opts fs pickled tmp_download_dir
              (get_filenames opts (keysD (urlsDict url_lines))) md5sums =
              Except.ok ⟨pathJoin opts.directory (yearStr opts), d,
                (if fs.isFile (pathJoin (pathJoin opts.directory (yearStr opts))
                  "md5sums.pkl") = true then pickled else [])⟩ from by
            simp [downloadSetup, hdir, hisdir, hloop]] at hftd
          simp only [ftdOf] at hftd
          rcases filesLoopAux_keys fs _ _ md5sums _ _ _ hloop entry hftd with h1 | h1
          · simp [lookupD] at h1
          · exact lookupD_isSome_iff.mpr h1
      · rw [show downloadSetup opts fs pickled tmp_download_dir
            (get_filenames opts (keysD (urlsDict url_lines))) md5sums =
            Except.ok ⟨pathJoin opts.directory (yearStr opts),
              (get_filenames opts (keysD (urlsDict url_lines))).map
                (fun p => (p.1,
                  pathJoin (pathJoin opts.directory (yearStr opts)) p.1)), []⟩ from by
          simp [downloadSetup, hdir, hisdir]] at hftd
        simp only [ftdOf] at hftd
        rw [lookupD_isSome_iff, keysD_mapPath] at hftd
        exact lookupD_isSome_iff.mpr hftd

/-- C6: whenever the reprojection loop reaches a selected entry and its
warp succeeds, r.import is called immediately afterwards with the warped
file as input and the entry's output name as output. -/
theorem C6_import_after_warp
    (we : WarpEnv) (proj : Dict) (region : Region)
    (tmp_dir download_dir pid : String) (kw : WarpKwargs)
    (l1 l2 : List (String × String)) (file out_name : String)
    (hkw : computeWarpKwargs proj region = some kw)
    (hpre : ∀ fq ∈ l1, we.raises (pathJoin download_dir fq.1) = false ∧
      we.outExists (outpathOf tmp_dir pid fq.1) = true)
    (hr : we.raises (pathJoin download_dir file) = false)
    (ho : we.outExists (outpathOf tmp_dir pid file) = true) :
    adjacentIn
      (Event.warp (pathJoin download_dir file) (outpathOf tmp_dir pid file) kw)
      (Event.importRaster (outpathOf tmp_dir pid file) out_name)
      (warpLoop we proj region tmp_dir download_dir pid
        (l1 ++ (file, out_name) :: l2)).trace = true := by
  rw [warpLoop_reach we proj region tmp_dir download_dir pid kw hkw
    l1 (file, out_name) l2 hpre hr ho]
  exact adjacentIn_append _ _ _ _ (adjacentIn_here _ _ _)

/-- C10: when the warp of a selected file raises or leaves no output file,
the run is fatal with exactly the message "Reprojection of Scene <path>
failed.", the trace ends at that warp, so r.import runs neither for that
file nor for any later file; and in any run an import event only occurs
for a warped output file that exists. -/
theorem C10_warp_failure_fatal
    (we : WarpEnv) (proj : Dict) (region : Region)
    (tmp_dir download_dir pid : String) (kw : WarpKwargs)
    (l1 l2 l : List (String × String)) (file out_name : String)
    (hkw : computeWarpKwargs proj region = some kw)
    (hpre : ∀ fq ∈ l1, we.raises (pathJoin download_dir fq.1) = false ∧
      we.outExists (outpathOf tmp_dir pid fq.1) = true)
    (hfail : we.raises (pathJoin download_dir file) = true ∨
      we.outExists (outpathOf tmp_dir pid file) = false) :
    (warpLoop we proj region tmp_dir download_dir pid
      (l1 ++ (file, out_name) :: l2)).fatal =
      some ("Reprojection of Scene " ++ pathJoin download_dir file ++ " failed.") ∧
    (warpLoop we proj region tmp_dir download_dir pid
      (l1 ++ (file, out_name) :: l2)).trace =
      warpTraceOf kw tmp_dir download_dir pid l1 ++
        [Event.warp (pathJoin download_dir file) (outpathOf tmp_dir pid file) kw] ∧
    ((warpLoop we proj region tmp_dir download_dir pid l).trace.all
      (fun e => match e with
        | Event.importRaster i _ => we.outExists i
        | _ => true)) = true := by
  rw [warpLoop_fail we proj region tmp_dir download_dir pid kw hkw
    l1 (file, out_name) l2 hpre hfail]
  exact ⟨rfl, rfl, warpLoop_import_outExists we proj region tmp_dir download_dir pid l⟩

/-- Closed evaluation of C1 at the fixture inputs. -/
theorem C1_download_decision_witness :
    (optsW.directory ≠ "" →
      fsW.isDir (pathJoin optsW.directory (yearStr optsW)) = true →
      ((lookupD (ftdOf (downloadSetup optsW fsW [] "t"
          [(fnameW, "dc_out")] [(fnameW, "abc123")])) fnameW).isSome = true ↔
        (fsW.isFile (pathJoin (pathJoin optsW.directory (yearStr optsW)) fnameW) = false ∨
         lookupD (if fsW.isFile (pathJoin (pathJoin optsW.directory (yearStr optsW))
            "md5sums.pkl") = true then [] else []) fnameW = none ∨
         lookupD [(fnameW, "abc123")] fnameW ≠
           lookupD (if fsW.isFile (pathJoin (pathJoin optsW.directory (yearStr optsW))
              "md5sums.pkl") = true then [] else []) fnameW))) ∧
    (optsW.directory ≠ "" →
      fsW.isDir (pathJoin optsW.directory (yearStr optsW)) = false →
      (lookupD (ftdOf (downloadSetup optsW fsW [] "t"
        [(fnameW, "dc_out")] [(fnameW, "abc123")])) fnameW).isSome = true) ∧
    (optsW.directory = "" →
      (lookupD (ftdOf (downloadSetup optsW fsW [] "t"
        [(fnameW, "dc_out")] [(fnameW, "abc123")])) fnameW).isSome = true) :=
  C1_download_decision optsW fsW [] "t" [(fnameW, "dc_out")] [(fnameW, "abc123")]
    fnameW (by decide) (by decide)

/-- Closed evaluation of C3 at the fixture inputs. -/
theorem C3_warp_parameters_witness :
    kwW.srcSRS = "EPSG:4326" ∧
    kwW.dstSRS = "EPSG:" ++ (epsgOf projW).getD "" ∧
    (epsgOf projW).isSome = true ∧
    kwW.outputBoundsSRS = kwW.dstSRS ∧
    kwW.outputBounds = (min regionW.e regionW.w, min regionW.n regionW.s,
      max regionW.e regionW.w, max regionW.n regionW.s) ∧
    (strToLower ((lookupD projW "unit").getD "") = "meter" ↔
      (kwW.xRes = some 100 ∧ kwW.yRes = some 100 ∧ kwW.targetAlignedPixels = true)) ∧
    ((warpLoop weW projW regionW "tmp" "d/2019" "42" [(fnameW, "dc_out")]).trace.all
      (fun e => match e with
        | Event.warp _ _ k => k == kwW
        | _ => true)) = true :=
  C3_warp_parameters projW regionW kwW weW "tmp" "d/2019" "42" [(fnameW, "dc_out")]
    (by decide)

/-- Closed evaluation of C6 at the fixture inputs. -/
theorem C6_import_after_warp_witness :
    adjacentIn
      (Event.warp (pathJoin "d/2019" fnameW) (outpathOf "tmp" "42" fnameW) kwW)
      (Event.importRaster (outpathOf "tmp" "42" fnameW) "dc_out")
      (warpLoop weW projW regionW "tmp" "d/2019" "42"
        ([] ++ (fnameW, "dc_out") :: [])).trace = true :=
  C6_import_after_warp weW projW regionW "tmp" "d/2019" "42" kwW [] [] fnameW "dc_out"
    (by decide) (by decide) rfl rfl

/-- Closed evaluation of C10 at the fixture inputs, with a warp that
raises. -/
theorem C10_warp_failure_fatal_witness :
    (warpLoop weFailW projW regionW "tmp" "d/2019" "42"
      ([] ++ (fnameW, "dc_out") :: [])).fatal =
      some ("Reprojection of Scene " ++ pathJoin "d/2019" fnameW ++ " failed.") ∧
    (warpLoop weFailW projW regionW "tmp" "d/2019" "42"
      ([] ++ (fnameW, "dc_out") :: [])).trace =
      warpTraceOf kwW "tmp" "d/2019" "42" [] ++
        [Event.warp (pathJoin "d/2019" fnameW) (outpathOf "tmp" "42" fnameW) kwW] ∧
    ((warpLoop weFailW projW regionW "tmp" "d/2019" "42" []).trace.all
      (fun e => match e with
        | Event.importRaster i _ => weFailW.outExists i
        | _ => true)) = true :=
  C10_warp_failure_fatal weFailW projW regionW "tmp" "d/2019" "42" kwW [] [] []
    fnameW "dc_out" (by decide) (by decide) (Or.inl rfl)

/-- Closed evaluation of C4 at the fixture inputs. -/
theorem C4_md5_persistence_witness :
    (persistedMd5sums optsW [(fnameW, pathJoin "d/2019" fnameW)] [(fnameW, "abc123")] =
      if ([(fnameW, pathJoin "d/2019" fnameW)] : Dict).length > 0 then
        some [(fnameW, "abc123")] else none) ∧
    (([(fnameW, pathJoin "d/2019" fnameW)] : Dict) = [] →
      persistedMd5sums optsW [(fnameW, pathJoin "d/2019" fnameW)]
        [(fnameW, "abc123")] = none) ∧
    lookupD [(fnameW, "abc123")] fnameW =
      (if (fun _ : String => true) (pathJoin "d/2019" fnameW) = true then
        lookupD [(fnameW, "abc123")] fnameW else lookupD [] fnameW) ∧
    lookupD [(fnameW, "abc123")] "other" = lookupD [] "other" ∧
    (∀ q ∈ ftdOf (downloadSetup optsW fsW [] "t"
        [(fnameW, "dc_out")] [(fnameW, "abc123")]),
      q.2 = pathJoin (pathJoin optsW.directory (yearStr optsW)) q.1) :=
  C4_md5_persistence optsW fsW [] "t" [(fnameW, "dc_out")] [(fnameW, "abc123")]
    (urlsDict urlLinesW) (fun _ => true) [] [(fnameW, pathJoin "d/2019" fnameW)]
    [(fnameW, "abc123")] [Event.download fnameW (pathJoin "d/2019" fnameW)]
    fnameW (pathJoin "d/2019" fnameW) "other"
    (by decide) (by decide) (by decide) (by decide) rfl (by decide) (by decide)

/-- Closed evaluation of C5 at the fixture inputs. -/
theorem C5_filename_selection_witness :
    ((lookupD (get_filenames optsW (keysD (urlsDict urlLinesW))) fnameW).isSome = true ↔
      (fnameW ∈ keysD (urlsDict urlLinesW) ∧
       (productSpecs optsW).any (fun s => decide (s.2 ≠ "") &&
         containsStr (strToLower fnameW) s.1) = true)) ∧
    ((match lookupD (get_filenames optsW (keysD (urlsDict urlLinesW))) fnameW with
      | some w => (productSpecs optsW).any (fun s => decide (s.2 = w) &&
          decide (s.2 ≠ "") && containsStr (strToLower fnameW) s.1)
      | none => true) = true) ∧
    (fnameW ∈ keysD (urlsDict urlLinesW) →
      urlLinesW.any (fun x => decide (x ≠ "") && strEndsWith x ".tif" &&
        decide (basenameOf x = fnameW)) = true) ∧
    ((lookupD (ftdOf (downloadSetup optsW fsW [] "t"
        (get_filenames optsW (keysD (urlsDict urlLinesW)))
        [(fnameW, "abc123")])) fnameW).isSome = true →
      (lookupD (get_filenames optsW (keysD (urlsDict urlLinesW))) fnameW).isSome = true) :=
  C5_filename_selection optsW urlLinesW fnameW fsW [] "t" [(fnameW, "abc123")]

/-- Closed evaluation of C2 at the fixture inputs. -/
theorem C2_linear_pipeline_witness :
    (mainRun optsW fsW [] urlLinesW md5LinesW (fun _ => true) weW projW regionW
      "tmp" "t" "42").trace.head? = some (Event.resolveDataset "3939050") ∧
    allBefore isResolveE isFetchE (mainRun optsW fsW [] urlLinesW md5LinesW
      (fun _ => true) weW projW regionW "tmp" "t" "42").trace = true ∧
    allBefore isFetchE isDecideE (mainRun optsW fsW [] urlLinesW md5LinesW
      (fun _ => true) weW projW regionW "tmp" "t" "42").trace = true ∧
    allBefore isDecideE isDownloadE (mainRun optsW fsW [] urlLinesW md5LinesW
      (fun _ => true) weW projW regionW "tmp" "t" "42").trace = true ∧
    allBefore isDownloadE isWarpE (mainRun optsW fsW [] urlLinesW md5LinesW
      (fun _ => true) weW projW regionW "tmp" "t" "42").trace = true ∧
    allBefore isImportE isAnnotateE (mainRun optsW fsW [] urlLinesW md5LinesW
      (fun _ => true) weW projW regionW "tmp" "t" "42").trace = true ∧
    warpsImmediatelyImported (mainRun optsW fsW [] urlLinesW md5LinesW
      (fun _ => true) weW projW regionW "tmp" "t" "42").trace = true ∧
    (mainRun optsW fsW [] urlLinesW md5LinesW (fun _ => true) weW projW regionW
      "tmp" "t" "42").fatal = none :=
  C2_linear_pipeline optsW fsW [] urlLinesW md5LinesW (fun _ => true) weW projW
    regionW "tmp" "t" "42" "3939050"
    ⟨"d/2019", [(fnameW, "d/2019/" ++ fnameW)], []⟩
    ([(fnameW, "abc123")], [Event.download fnameW ("d/2019/" ++ fnameW)]) kwW
    (by decide) rfl rfl (by decide) (by decide)

/-- Closed evaluation of C7 at the fixture inputs. -/
theorem C7_category_annotation_witness :
    (((mainRun optsW fsW [] urlLinesW md5LinesW (fun _ => true) weW projW regionW
        "tmp" "t" "42").trace.any isAnnotateE = true) ↔
      optsW.discrete_classification_output ≠ "") ∧
    (mainRun optsW fsW [] urlLinesW md5LinesW (fun _ => true) weW projW regionW
        "tmp" "t" "42").trace.all
      (annotateOnly optsW.discrete_classification_output categoryText) = true ∧
    categoryText =
      "0|No inputdata available\n" ++
      "111|Closed forest, evergreen needle leaf\n" ++
      "113|Closed forest, deciduous needle leaf\n" ++
      "112|Closed forest, evergreen, broad leaf\n" ++
      "114|Closed forest, deciduous broad leaf\n" ++
      "115|Closed forest, mixed\n" ++
      "116|Closed forest, unknown\n" ++
      "121|Open forest, evergreen needle leaf\n" ++
      "123|Open forest, deciduous needle leaf\n" ++
      "122|Open forest, evergreen broad leaf\n" ++
      "124|Open forest, deciduous broad leaf\n" ++
      "125|Open forest, mixed\n" ++
      "126|Open forest, unknown\n" ++
      "20|Shrubs\n" ++
      "30|Herbaceous vegetation\n" ++
      "90|Herbaceous wetland\n" ++
      "100|Moss and lichen\n" ++
      "60|Bare / sparse vegetation\n" ++
      "40|Cultivated and managed vegetation/agriculture (cropland)\n" ++
      "50|Urban/ built up\n" ++
      "70|Snow and Ice\n" ++
      "80|Permanent water bodies\n" ++
      "200|Open sea\n" ∧
    discrete_classification_coding.map Prod.fst =
      ["0", "111", "113", "112", "114", "115", "116", "121", "123", "122",
       "124", "125", "126", "20", "30", "90", "100", "60", "40", "50", "70",
       "80", "200"] ∧
    discrete_classification_coding.length = 23 :=
  C7_category_annotation optsW fsW [] urlLinesW md5LinesW (fun _ => true) weW
    projW regionW "tmp" "t" "42" "3939050"
    ⟨"d/2019", [(fnameW, "d/2019/" ++ fnameW)], []⟩
    ([(fnameW, "abc123")], [Event.download fnameW ("d/2019/" ++ fnameW)]) kwW
    (by decide) rfl rfl (by decide) (by decide)

end ProbaV
